import Mathlib

/-!
Envelope tracer of `geth/node/whisper_tracer.go`.

A shallow embedding of the package-level counter vectors `envelopeCounter` and
`envelopeVolume`, of `init` and of `WhisperEnvelopeTracer.Trace`.

The Go program mutates two process-wide counter vectors.  Here the two vectors are
the fields of an explicit state (`Globals`) that every operation takes and returns.
An operation that can panic returns the state it leaves behind together with the
panic, if any: what was written before a panic stays written.

The counter vector, the registry and the envelope record come from libraries that
the package imports.  The parts of them that `Trace` and `init` use are modelled
below:

* a Go string is a sequence of bytes, not necessarily valid UTF-8;
* a counter cell is a `float64`.  The cells the program writes hold non-negative
  integers, so a cell is the natural number it holds and an addition rounds the
  exact sum to the nearest number with a 53-bit significand, ties to even.  The
  exponent range of `float64` is not modelled: a cell would have to exceed `2^1023`.
-/

namespace Node

/-! ## Go strings -/

/-- A Go string: a sequence of bytes. -/
abbrev GoString := List UInt8

/-- The Go string a string literal of the source denotes: its UTF-8 encoding. -/
def lit (s : String) : GoString := s.toUTF8.data.toList

/-- State of the UTF-8 scan between two bytes: the number of continuation bytes still due
and the range the next of them must lie in. -/
structure Utf8State where
  need : Nat
  lo : UInt8
  hi : UInt8

/-- One byte of the UTF-8 scan; `none` is the rejecting state. -/
def utf8Step (s : Option Utf8State) (b : UInt8) : Option Utf8State :=
  match s with
  | none => none
  | some s =>
    if s.need = 0 then
      if b < 0x80 then some ⟨0, 0x80, 0xBF⟩
      else if 0xC2 ≤ b ∧ b ≤ 0xDF then some ⟨1, 0x80, 0xBF⟩
      else if b = 0xE0 then some ⟨2, 0xA0, 0xBF⟩
      else if b = 0xED then some ⟨2, 0x80, 0x9F⟩
      else if 0xE1 ≤ b ∧ b ≤ 0xEF then some ⟨2, 0x80, 0xBF⟩
      else if b = 0xF0 then some ⟨3, 0x90, 0xBF⟩
      else if 0xF1 ≤ b ∧ b ≤ 0xF3 then some ⟨3, 0x80, 0xBF⟩
      else if b = 0xF4 then some ⟨3, 0x80, 0x8F⟩
      else none
    else if s.lo ≤ b ∧ b ≤ s.hi then some ⟨s.need - 1, 0x80, 0xBF⟩
    else none

/-- Function `utf8.ValidString` of the Go standard library: whether the bytes are a
sequence of well-formed UTF-8 encodings. -/
def ValidString (s : GoString) : Bool :=
  match s.foldl utf8Step (some ⟨0, 0x80, 0xBF⟩) with
  | some st => st.need == 0
  | none => false

/-- Function `strconv.FormatBool` of the Go standard library. -/
def FormatBool (b : Bool) : GoString := if b then lit "true" else lit "false"

/-! ## Counter cells -/

/-- The `float64` nearest to the natural number `n`, ties to even: `n` itself below `2^53`,
otherwise the nearest multiple of the power of two that leaves a 53-bit significand. -/
def roundF64 (n : Nat) : Nat :=
  if n < 2 ^ 53 then n
  else
    let u := 2 ^ (Nat.log 2 n - 52)
    let q := n / u
    let r := n % u
    if 2 * r < u then q * u
    else if u < 2 * r then (q + 1) * u
    else if q % 2 = 0 then q * u
    else (q + 1) * u

/-- Whether the natural number `n` is a `float64` value. -/
def IsFloat64 (n : Nat) : Prop := roundF64 n = n

instance (n : Nat) : Decidable (IsFloat64 n) := by
  unfold IsFloat64; exact inferInstance

/-- Go conversion `float64(n)` of a non-negative integer. -/
def float64 (n : Nat) : Int := (roundF64 n : Nat)

/-! ## Failure outcomes -/

/-- The ways in which the modelled code can panic. -/
inductive Panic where
  /-- A field of a nil `*EnvelopeMeta` was read. -/
  | nilPointerDereference
  /-- Method `WithLabelValues` was given a number of values different from the number of
  label names. -/
  | inconsistentCardinality (expected got : Nat)
  /-- Method `WithLabelValues` was given a label value that is not valid UTF-8. -/
  | invalidLabelValue (value : GoString)
  /-- Method `Counter.Add` was given a negative increment. -/
  | counterCannotDecrease
  /-- Function `MustRegister` met a collector whose name is already registered. -/
  | duplicateRegistration (fqName : String)
  deriving DecidableEq, Repr

/-! ## The counter primitive -/

/-- Options of a counter vector, the two fields of `prometheus.CounterOpts` the source sets. -/
structure CounterOpts where
  Name : String
  Help : String
  deriving DecidableEq, Repr

/-- Descriptor of a counter vector: its name, help text and label names. -/
structure Desc where
  fqName : String
  help : String
  variableLabels : List String
  deriving DecidableEq, Repr

/-- The children of a counter vector: label values and current value, in creation order. -/
abbrev MetricMap := List (List GoString × Nat)

namespace MetricMap

/-- Value of the first child whose label values are `lvs`, if there is one. -/
def get? : MetricMap → List GoString → Option Nat
  | [], _ => none
  | (k, v) :: m, lvs => if k = lvs then some v else get? m lvs

/-- Label values of the children, in creation order. -/
def keys (m : MetricMap) : List (List GoString) := m.map Prod.fst

/-- Apply `f` to the value of the child with label values `lvs`. -/
def modify (m : MetricMap) (lvs : List GoString) (f : Nat → Nat) : MetricMap :=
  m.map fun p => if p.1 = lvs then (p.1, f p.2) else p

/-- The child with label values `lvs` is created with value `0` unless it exists. -/
def getOrCreate (m : MetricMap) (lvs : List GoString) : MetricMap :=
  match get? m lvs with
  | some _ => m
  | none => m ++ [(lvs, 0)]

/-- What `WithLabelValues(lvs).Add(v)` does to the children of a vector, for `v ≥ 0`. -/
def bump (m : MetricMap) (k : List GoString) (v : Nat) : MetricMap :=
  (m.getOrCreate k).modify k (fun x => roundF64 (x + v))

end MetricMap

/-- Modelled from the spec: the counter vector of the imported metrics library, which is
not part of the repository.  "Two counter families, each keyed by the 4-tuple"; "each
distinct label key conceptually owns its own counter cell". -/
structure CounterVec where
  desc : Desc
  metrics : MetricMap
  deriving DecidableEq, Repr

/-- Constructor `prometheus.NewCounterVec`: a vector with the given options and label names
and no child. -/
def NewCounterVec (opts : CounterOpts) (labelNames : List String) : CounterVec :=
  ⟨⟨opts.Name, opts.Help, labelNames⟩, []⟩

/-- One child counter of a vector: the vector it lives in and its label values. -/
structure Counter where
  vec : CounterVec
  lvs : List GoString
  deriving DecidableEq, Repr

namespace CounterVec

/-- Method `CounterVec.WithLabelValues`: panics when the number of values differs from the
number of label names or when a value is not valid UTF-8, the vector being untouched;
otherwise returns the child for these values, creating it at `0`. -/
def WithLabelValues (cv : CounterVec) (lvs : List GoString) : Except Panic Counter :=
  if lvs.length = cv.desc.variableLabels.length then
    match lvs.find? (fun v => !ValidString v) with
    | some v => .error (.invalidLabelValue v)
    | none => .ok ⟨{ cv with metrics := cv.metrics.getOrCreate lvs }, lvs⟩
  else
    .error (.inconsistentCardinality cv.desc.variableLabels.length lvs.length)

/-- In-memory value of the child with label values `lvs`, if it exists. -/
def get? (cv : CounterVec) (lvs : List GoString) : Option Nat := cv.metrics.get? lvs

/-- In-memory value for `lvs`; a child that does not exist counts as `0`. -/
def value (cv : CounterVec) (lvs : List GoString) : Nat := (cv.get? lvs).getD 0

/-- Whether the vector holds a child for `lvs`. -/
def present (cv : CounterVec) (lvs : List GoString) : Bool := (cv.get? lvs).isSome

end CounterVec

namespace Counter

/-- Method `Counter.Add`: panics on a negative increment, otherwise the cell takes the
`float64` sum of its value and the increment. -/
def Add (c : Counter) (v : Int) : Except Panic CounterVec :=
  if v < 0 then .error .counterCannotDecrease
  else .ok { c.vec with metrics := c.vec.metrics.modify c.lvs (fun x => roundF64 (x + v.toNat)) }

/-- Method `Counter.Inc`: the cell takes the `float64` sum of its value and one. -/
def Inc (c : Counter) : CounterVec :=
  { c.vec with metrics := c.vec.metrics.modify c.lvs (fun x => roundF64 (x + 1)) }

end Counter

/-! ## The registry -/

/-- Modelled from the spec: the metrics registry of the imported library.  "Registration
of the counter families at startup can fail only if performed twice for the same names in
the same metrics registry." -/
structure Registry where
  descs : List Desc
  deriving DecidableEq, Repr

/-- Function `prometheus.MustRegister` for one collector: panics when the name is taken. -/
def MustRegister (r : Registry) (c : CounterVec) : Except Panic Registry :=
  if c.desc.fqName ∈ r.descs.map Desc.fqName then
    .error (.duplicateRegistration c.desc.fqName)
  else
    .ok ⟨r.descs ++ [c.desc]⟩

/-! ## Package `node` -/

/-- Initial value of the package variable `envelopeCounter`. -/
def envelopeCounter : CounterVec :=
  NewCounterVec ⟨"envelope_counter", "Envelopes counter"⟩ ["topic", "source", "is_new", "peer"]

/-- Initial value of the package variable `envelopeVolume`. -/
def envelopeVolume : CounterVec :=
  NewCounterVec ⟨"envelope_volume", "Volume of received envelopes"⟩
    ["topic", "source", "is_new", "peer"]

/-- The function `init` of the package: registers the two vectors, in this order. -/
def init (r : Registry) : Except Panic Registry := do
  let r ← MustRegister r envelopeCounter
  MustRegister r envelopeVolume

/-- Modelled from the spec: the record `whisper.EnvelopeMeta` of the imported node library,
with the fields `Trace` reads.  `Size` is the "non-negative size of the raw envelope
payload"; the topic and source types are left open. -/
structure EnvelopeMeta (TopicType EnvelopeSource : Type) where
  Topic : TopicType
  Size : Nat
  Source : EnvelopeSource
  IsNew : Bool
  Peer : GoString

/-- What `Trace` uses of the imported node library, taken as parameters: the methods
`TopicType.String` and `EnvelopeMeta.SourceString`, and the zero values of the topic and
source types. -/
structure Whisper (TopicType EnvelopeSource : Type) where
  TopicString : TopicType → GoString
  SourceString : EnvelopeMeta TopicType EnvelopeSource → GoString
  zeroTopic : TopicType
  zeroSource : EnvelopeSource

/-- The mutable package-level state: the current contents of the two counter vectors. -/
structure Globals where
  envelopeCounter : CounterVec
  envelopeVolume : CounterVec
  deriving DecidableEq, Repr

/-- State right after package initialisation: both vectors as constructed, without children. -/
def Globals.fresh : Globals := ⟨Node.envelopeCounter, Node.envelopeVolume⟩

/-- What holds of every state the program reaches: the descriptors of the two vectors are
the ones fixed at construction and every cell holds a `float64` value. -/
def Globals.WF (g : Globals) : Prop :=
  g.envelopeCounter.desc = Node.envelopeCounter.desc ∧
    g.envelopeVolume.desc = Node.envelopeVolume.desc ∧
    (∀ p ∈ g.envelopeCounter.metrics, IsFloat64 p.2) ∧
    (∀ p ∈ g.envelopeVolume.metrics, IsFloat64 p.2)

instance (g : Globals) : Decidable g.WF := by
  unfold Globals.WF; exact inferInstance

namespace WhisperEnvelopeTracer

variable {TopicType EnvelopeSource : Type}

/-- Method `WhisperEnvelopeTracer.Trace`.  The argument is a pointer, `none` being nil.  The
result is the state the call leaves behind and the panic it ended with, if any. -/
def Trace (w : Whisper TopicType EnvelopeSource) (g : Globals)
    (envelope : Option (EnvelopeMeta TopicType EnvelopeSource)) : Globals × Option Panic :=
  match envelope with
  | none => (g, some .nilPointerDereference)
  | some envelope =>
    match g.envelopeCounter.WithLabelValues
      [w.TopicString envelope.Topic, w.SourceString envelope,
       FormatBool envelope.IsNew, envelope.Peer] with
    | .error p => (g, some p)
    | .ok c =>
      let g := { g with envelopeCounter := c.Inc }
      match g.envelopeVolume.WithLabelValues
        [w.TopicString envelope.Topic, w.SourceString envelope,
         FormatBool envelope.IsNew, envelope.Peer] with
      | .error p => (g, some p)
      | .ok c =>
        match c.Add (float64 envelope.Size) with
        | .error p => ({ g with envelopeVolume := c.vec }, some p)
        | .ok v => ({ g with envelopeVolume := v }, none)

/-- Successive `Trace` calls, one per observation of the list, stopping at the first panic. -/
def TraceAll (w : Whisper TopicType EnvelopeSource) (g : Globals) :
    List (EnvelopeMeta TopicType EnvelopeSource) → Globals × Option Panic
  | [] => (g, none)
  | e :: es =>
    match Trace w g (some e) with
    | (g, none) => TraceAll w g es
    | (g, some p) => (g, some p)

end WhisperEnvelopeTracer

/-! ## Exposition -/

/-- One exposed series: metric name, label name/value pairs, value. -/
structure Sample where
  name : String
  labels : List (String × GoString)
  value : Nat
  deriving DecidableEq, Repr

/-- Modelled from the spec: what a scrape reads from one vector.  The endpoint "renders the
current value of every label-key combination". -/
def CounterVec.Collect (cv : CounterVec) : List Sample :=
  cv.metrics.map fun p => ⟨cv.desc.fqName, cv.desc.variableLabels.zip p.1, p.2⟩

/-- Modelled from the spec: a scrape of the metrics endpoint, restricted to the two
families of this package. -/
def Gather (g : Globals) : List Sample :=
  g.envelopeCounter.Collect ++ g.envelopeVolume.Collect

/-! ## Specification vocabulary -/

/-- The label tuple of an observation, in the spec's words:
`(stringify(topic), sourceDescriptor, stringify(isNew), peer)`. -/
def labelKey {TopicType EnvelopeSource : Type} (w : Whisper TopicType EnvelopeSource)
    (e : EnvelopeMeta TopicType EnvelopeSource) : List GoString :=
  [w.TopicString e.Topic, w.SourceString e, FormatBool e.IsNew, e.Peer]

/-- Whether the four label values of an observation are valid UTF-8. -/
def validLabels {TopicType EnvelopeSource : Type} (w : Whisper TopicType EnvelopeSource)
    (e : EnvelopeMeta TopicType EnvelopeSource) : Bool :=
  (labelKey w e).all ValidString

/-- The Go value `whisper.EnvelopeMeta{}`: every field missing, that is, at its zero value. -/
def zeroEnvelope {TopicType EnvelopeSource : Type} (w : Whisper TopicType EnvelopeSource) :
    EnvelopeMeta TopicType EnvelopeSource :=
  ⟨w.zeroTopic, 0, w.zeroSource, false, []⟩

namespace WhisperEnvelopeTracer

variable {TopicType EnvelopeSource : Type}

/-- The state `Trace` of an observation with valid label values leads to. -/
def traced (w : Whisper TopicType EnvelopeSource) (g : Globals)
    (e : EnvelopeMeta TopicType EnvelopeSource) : Globals :=
  ⟨{ g.envelopeCounter with metrics := g.envelopeCounter.metrics.bump (labelKey w e) 1 },
   { g.envelopeVolume with
      metrics := g.envelopeVolume.metrics.bump (labelKey w e) (roundF64 e.Size) }⟩

/-- The state `TraceAll` leads to when every observation has valid label values. -/
def tracedAll (w : Whisper TopicType EnvelopeSource) (g : Globals)
    (es : List (EnvelopeMeta TopicType EnvelopeSource)) : Globals :=
  es.foldl (traced w) g

/-- The observations `TraceAll` records: those before the first one with a label value that
is not valid UTF-8. -/
def recorded (w : Whisper TopicType EnvelopeSource)
    (es : List (EnvelopeMeta TopicType EnvelopeSource)) :
    List (EnvelopeMeta TopicType EnvelopeSource) :=
  es.takeWhile (validLabels w)

/-- Observations of the list with the label tuple `k`. -/
def withKey (w : Whisper TopicType EnvelopeSource)
    (es : List (EnvelopeMeta TopicType EnvelopeSource)) (k : List GoString) :
    List (EnvelopeMeta TopicType EnvelopeSource) :=
  es.filter fun e => labelKey w e = k

/-- Sum of the sizes of the observations of a list. -/
def totalSize (es : List (EnvelopeMeta TopicType EnvelopeSource)) : Nat :=
  (es.map fun e => e.Size).sum

end WhisperEnvelopeTracer

/-! ## Example observations -/

/-- Concrete node library used in examples: topics are their own string form and the source
descriptor is the stored source string. -/
def demoWhisper : Whisper GoString GoString := ⟨id, fun e => e.Source, [], []⟩

/-- Observation `(topicA, peer1, true, size=10)`. -/
def obsA : EnvelopeMeta GoString GoString :=
  ⟨lit "topicA", 10, lit "peer", true, lit "peer1"⟩

/-- Observation `(topicB, peer1, true, size=20)`. -/
def obsB : EnvelopeMeta GoString GoString :=
  ⟨lit "topicB", 20, lit "peer", true, lit "peer1"⟩

/-- An observation of size zero without peer identifier. -/
def obsZero : EnvelopeMeta GoString GoString :=
  ⟨lit "topicA", 0, lit "unknown", false, []⟩

/-- An observation of size zero whose peer identifier is the single byte `0xff`, which is
not valid UTF-8. -/
def obsBadPeer : EnvelopeMeta GoString GoString :=
  ⟨lit "topicA", 0, lit "peer", true, [0xff]⟩

/-- An observation of the largest size a 32-bit length can hold, `2^32 - 1`. -/
def obsBig : EnvelopeMeta GoString GoString :=
  ⟨lit "topicA", 4294967295, lit "peer", true, lit "peer1"⟩

/-- An observation of size `2^21`, with the label values of `obsBig`. -/
def obsMid : EnvelopeMeta GoString GoString :=
  ⟨lit "topicA", 2097152, lit "peer", true, lit "peer1"⟩

/-- An observation of size 1, with the label values of `obsBig`. -/
def obsOne : EnvelopeMeta GoString GoString :=
  ⟨lit "topicA", 1, lit "peer", true, lit "peer1"⟩

/-- The label tuple of `obsA`, `obsBig`, `obsMid` and `obsOne`. -/
def keyA : List GoString := [lit "topicA", lit "peer", lit "true", lit "peer1"]

/-- The label tuple of `obsB`. -/
def keyB : List GoString := [lit "topicB", lit "peer", lit "true", lit "peer1"]

/-! ## Lemmas on `float64` rounding -/

theorem roundF64_of_lt {n : Nat} (h : n < 2 ^ 53) : roundF64 n = n := by
  unfold roundF64
  rw [if_pos h]

theorem roundF64_of_dvd {n : Nat} (hd : 2 ^ (Nat.log 2 n - 52) ∣ n) : roundF64 n = n := by
  unfold roundF64
  by_cases h : n < 2 ^ 53
  · rw [if_pos h]
  · rw [if_neg h]
    have hr : n % 2 ^ (Nat.log 2 n - 52) = 0 := Nat.mod_eq_zero_of_dvd hd
    have hu : 0 < 2 ^ (Nat.log 2 n - 52) := Nat.pos_pow_of_pos _ (by norm_num)
    simp only [hr, Nat.mul_zero, hu, if_true]
    exact Nat.div_mul_cancel hd

theorem roundF64_cases {n : Nat} (h : 2 ^ 53 ≤ n) :
    roundF64 n = n / 2 ^ (Nat.log 2 n - 52) * 2 ^ (Nat.log 2 n - 52) ∨
    roundF64 n = (n / 2 ^ (Nat.log 2 n - 52) + 1) * 2 ^ (Nat.log 2 n - 52) := by
  unfold roundF64
  rw [if_neg (not_lt.mpr h)]
  simp only
  split_ifs <;> simp

theorem log_facts {n : Nat} (h : 2 ^ 53 ≤ n) :
    2 ^ 52 * 2 ^ (Nat.log 2 n - 52) ≤ n ∧ n < 2 ^ 53 * 2 ^ (Nat.log 2 n - 52) ∧
      2 ^ 52 ≤ n / 2 ^ (Nat.log 2 n - 52) ∧ n / 2 ^ (Nat.log 2 n - 52) < 2 ^ 53 := by
  have hn : n ≠ 0 := by
    intro h0; rw [h0] at h; norm_num at h
  have h1 : 2 ^ Nat.log 2 n ≤ n := Nat.pow_log_le_self 2 hn
  have h2 : n < 2 ^ (Nat.log 2 n + 1) := Nat.lt_pow_succ_log_self (by norm_num) n
  have h3 : 53 ≤ Nat.log 2 n := Nat.le_log_of_pow_le (by norm_num) h
  have hu : 0 < 2 ^ (Nat.log 2 n - 52) := Nat.pos_pow_of_pos _ (by norm_num)
  have e1 : 2 ^ 52 * 2 ^ (Nat.log 2 n - 52) = 2 ^ Nat.log 2 n := by
    rw [← pow_add]; congr 1; omega
  have e2 : 2 ^ 53 * 2 ^ (Nat.log 2 n - 52) = 2 ^ (Nat.log 2 n + 1) := by
    rw [← pow_add]; congr 1; omega
  refine ⟨e1 ▸ h1, e2 ▸ h2, ?_, ?_⟩
  · rw [Nat.le_div_iff_mul_le hu, e1]; exact h1
  · rw [Nat.div_lt_iff_lt_mul hu, e2]; exact h2

theorem ulp_dvd_mul_pow (m e : Nat) (h1 : 2 ^ 52 ≤ m) (h2 : m ≤ 2 ^ 53) :
    2 ^ (Nat.log 2 (m * 2 ^ e) - 52) ∣ m * 2 ^ e := by
  rcases Nat.lt_or_eq_of_le h2 with h | h
  · have hl : Nat.log 2 (m * 2 ^ e) = 52 + e := by
      apply Nat.log_eq_of_pow_le_of_lt_pow
      · rw [pow_add]; exact Nat.mul_le_mul_right _ h1
      · rw [show 52 + e + 1 = 53 + e by omega, pow_add]
        exact Nat.mul_lt_mul_of_pos_right h (Nat.pos_pow_of_pos _ (by norm_num))
    rw [hl, show 52 + e - 52 = e by omega]
    exact Dvd.intro_left m rfl
  · rw [h, ← pow_add, Nat.log_pow (by norm_num)]
    exact pow_dvd_pow 2 (by omega)

theorem isFloat64_roundF64 (n : Nat) : IsFloat64 (roundF64 n) := by
  unfold IsFloat64
  by_cases h : n < 2 ^ 53
  · rw [roundF64_of_lt h, roundF64_of_lt h]
  · have h53 : 2 ^ 53 ≤ n := not_lt.mp h
    obtain ⟨_, _, hq1, hq2⟩ := log_facts h53
    apply roundF64_of_dvd
    rcases roundF64_cases h53 with hc | hc
    · rw [hc]; exact ulp_dvd_mul_pow _ _ hq1 (le_of_lt hq2)
    · rw [hc]; exact ulp_dvd_mul_pow _ _ (by omega) (by omega)

theorem isFloat64_dvd {a : Nat} (ha : IsFloat64 a) (h : 2 ^ 53 ≤ a) :
    2 ^ (Nat.log 2 a - 52) ∣ a := by
  unfold IsFloat64 at ha
  rcases roundF64_cases h with hc | hc
  · rw [ha] at hc; exact Dvd.intro_left _ hc.symm
  · rw [ha] at hc; exact Dvd.intro_left _ hc.symm

theorem div_mul_le_roundF64 {s : Nat} (h : 2 ^ 53 ≤ s) :
    s / 2 ^ (Nat.log 2 s - 52) * 2 ^ (Nat.log 2 s - 52) ≤ roundF64 s := by
  rcases roundF64_cases h with hc | hc
  · rw [hc]
  · rw [hc]; exact Nat.mul_le_mul_right _ (Nat.le_succ _)

theorem le_roundF64 {a s : Nat} (ha : IsFloat64 a) (h : a ≤ s) : a ≤ roundF64 s := by
  by_cases hs : s < 2 ^ 53
  · rw [roundF64_of_lt hs]; exact h
  · have hs53 : 2 ^ 53 ≤ s := not_lt.mp hs
    refine le_trans ?_ (div_mul_le_roundF64 hs53)
    obtain ⟨hs1, _, hq1, _⟩ := log_facts hs53
    have hu : 0 < 2 ^ (Nat.log 2 s - 52) := Nat.pos_pow_of_pos _ (by norm_num)
    have hfloor : 2 ^ 52 * 2 ^ (Nat.log 2 s - 52)
        ≤ s / 2 ^ (Nat.log 2 s - 52) * 2 ^ (Nat.log 2 s - 52) :=
      Nat.mul_le_mul_right _ hq1
    by_cases ha53 : a < 2 ^ 53
    · have h3 : 53 ≤ Nat.log 2 s := Nat.le_log_of_pow_le (by norm_num) hs53
      have : 2 ^ 53 ≤ 2 ^ 52 * 2 ^ (Nat.log 2 s - 52) := by
        rw [← pow_add]; exact Nat.pow_le_pow_right (by norm_num) (by omega)
      omega
    · have ha53 : 2 ^ 53 ≤ a := not_lt.mp ha53
      have hmono : Nat.log 2 a ≤ Nat.log 2 s := Nat.log_mono_right h
      rcases Nat.lt_or_eq_of_le hmono with hlt | heq
      · obtain ⟨_, ha2, _, _⟩ := log_facts ha53
        have : 2 ^ 53 * 2 ^ (Nat.log 2 a - 52) ≤ 2 ^ 52 * 2 ^ (Nat.log 2 s - 52) := by
          rw [← pow_add, ← pow_add]
          have h3 : 53 ≤ Nat.log 2 a := Nat.le_log_of_pow_le (by norm_num) ha53
          exact Nat.pow_le_pow_right (by norm_num) (by omega)
        omega
      · have hd := isFloat64_dvd ha ha53
        rw [heq] at hd
        obtain ⟨c, hc⟩ := hd
        have hcq : c ≤ s / 2 ^ (Nat.log 2 s - 52) := by
          rw [Nat.le_div_iff_mul_le hu, Nat.mul_comm, ← hc]; exact h
        rw [hc, Nat.mul_comm]
        exact Nat.mul_le_mul_right _ hcq

theorem roundF64_of_le {n : Nat} (h : n ≤ 2 ^ 53) : roundF64 n = n := by
  rcases Nat.lt_or_eq_of_le h with h | h
  · exact roundF64_of_lt h
  · subst h
    apply roundF64_of_dvd
    have hl : Nat.log 2 (2 ^ 53) = 53 := Nat.log_pow (by norm_num) 53
    rw [hl]
    exact pow_dvd_pow 2 (Nat.sub_le 53 52)

theorem roundF64_tie : roundF64 (2 ^ 53 + 1) = 2 ^ 53 := by
  have hl : Nat.log 2 (2 ^ 53 + 1) = 53 :=
    Nat.log_eq_of_pow_le_of_lt_pow (by norm_num) (by norm_num)
  unfold roundF64
  rw [hl]
  norm_num

theorem isFloat64_zero : IsFloat64 0 := roundF64_of_lt (by norm_num)

/-! ## Lemmas on the children of a vector -/

namespace MetricMap

theorem get?_nil (k : List GoString) : get? [] k = none := rfl

theorem get?_cons (p : List GoString × Nat) (m : MetricMap) (k : List GoString) :
    get? (p :: m) k = if p.1 = k then some p.2 else get? m k := by
  cases p; rfl

theorem get?_eq_none_iff (m : MetricMap) (k : List GoString) :
    get? m k = none ↔ k ∉ keys m := by
  induction m with
  | nil => simp [get?_nil, keys]
  | cons p m ih =>
    rw [get?_cons]
    by_cases h : p.1 = k
    · simp [h, keys]
    · have h2 : ¬ k = p.1 := fun e => h e.symm
      simp only [keys, List.map_cons, List.mem_cons, h, h2, if_false, false_or] at ih ⊢
      exact ih

theorem get?_isSome_iff (m : MetricMap) (k : List GoString) :
    (get? m k).isSome = true ↔ k ∈ keys m := by
  rw [← not_iff_not, ← get?_eq_none_iff]
  cases get? m k <;> simp

theorem get?_append (m m2 : MetricMap) (k : List GoString) :
    get? (m ++ m2) k = match get? m k with
      | some v => some v
      | none => get? m2 k := by
  induction m with
  | nil => simp [get?_nil]
  | cons p m ih =>
    rw [List.cons_append, get?_cons, get?_cons]
    by_cases h : p.1 = k
    · simp [h]
    · simp [h, ih]

theorem keys_modify (m : MetricMap) (k : List GoString) (f : Nat → Nat) :
    keys (modify m k f) = keys m := by
  induction m with
  | nil => rfl
  | cons p m ih =>
    simp only [keys, modify, List.map_cons] at ih ⊢
    rw [ih]
    by_cases h : p.1 = k <;> simp [h]

theorem get?_modify (m : MetricMap) (k k2 : List GoString) (f : Nat → Nat) :
    get? (modify m k f) k2 = if k2 = k then (get? m k2).map f else get? m k2 := by
  induction m with
  | nil => simp [modify, get?_nil]
  | cons p m ih =>
    have hm : modify (p :: m) k f
        = (if p.1 = k then (p.1, f p.2) else p) :: modify m k f := rfl
    rw [hm, get?_cons, get?_cons, ih]
    by_cases h1 : p.1 = k
    · by_cases h2 : k2 = k
      · simp [h1, h2]
      · have h3 : ¬ k = k2 := fun e => h2 e.symm
        simp [h1, h2, h3]
    · by_cases h2 : k2 = k
      · have h3 : ¬ p.1 = k2 := fun e => h1 (e.trans h2)
        simp [h1, h2, h3]
      · simp [h1, h2]

theorem keys_getOrCreate (m : MetricMap) (k : List GoString) :
    keys (getOrCreate m k) = if k ∈ keys m then keys m else keys m ++ [k] := by
  unfold getOrCreate
  cases h : get? m k with
  | none =>
    have := (get?_eq_none_iff m k).1 h
    rw [if_neg this]
    simp [keys]
  | some v =>
    have : k ∈ keys m := (get?_isSome_iff m k).1 (by simp [h])
    simp [this]

theorem get?_getOrCreate (m : MetricMap) (k k2 : List GoString) :
    get? (getOrCreate m k) k2 = if k2 = k then some ((get? m k).getD 0) else get? m k2 := by
  unfold getOrCreate
  cases h : get? m k with
  | none =>
    simp only [get?_append, get?_cons, get?_nil, Option.getD_none]
    by_cases h2 : k2 = k
    · subst h2; simp [h]
    · have h3 : ¬ k = k2 := fun e => h2 e.symm
      simp [h2, h3]
      cases get? m k2 <;> rfl
  | some v =>
    by_cases h2 : k2 = k
    · subst h2; simp [h]
    · simp [h2]

theorem mem_getOrCreate (m : MetricMap) (k : List GoString) (p : List GoString × Nat)
    (h : p ∈ getOrCreate m k) : p ∈ m ∨ p = (k, 0) := by
  unfold getOrCreate at h
  cases hg : get? m k with
  | none =>
    rw [hg] at h
    rcases List.mem_append.1 h with h1 | h1
    · exact Or.inl h1
    · exact Or.inr (List.mem_singleton.1 h1)
  | some v =>
    rw [hg] at h
    exact Or.inl h

theorem get?_bump (m : MetricMap) (k k2 : List GoString) (v : Nat) :
    get? (bump m k v) k2
      = if k2 = k then some (roundF64 ((get? m k).getD 0 + v)) else get? m k2 := by
  unfold bump
  rw [get?_modify, get?_getOrCreate]
  by_cases h : k2 = k <;> simp [h]

theorem keys_bump (m : MetricMap) (k : List GoString) (v : Nat) :
    keys (bump m k v) = if k ∈ keys m then keys m else keys m ++ [k] := by
  unfold bump
  rw [keys_modify, keys_getOrCreate]

theorem mem_keys_bump (m : MetricMap) (k k2 : List GoString) (v : Nat) :
    k2 ∈ keys (bump m k v) ↔ k2 ∈ keys m ∨ k2 = k := by
  rw [keys_bump]
  by_cases h : k ∈ keys m
  · simp only [h, if_true]
    constructor
    · exact Or.inl
    · rintro (h2 | h2)
      · exact h2
      · rw [h2]; exact h
  · simp [h]

theorem nodup_keys_bump (m : MetricMap) (k : List GoString) (v : Nat)
    (h : (keys m).Nodup) : (keys (bump m k v)).Nodup := by
  rw [keys_bump]
  by_cases hk : k ∈ keys m
  · simpa [hk] using h
  · simp only [hk, if_false]
    rw [List.nodup_append]
    refine ⟨h, List.nodup_singleton k, ?_⟩
    intro a ha hb
    rw [List.mem_singleton] at hb
    exact hk (hb ▸ ha)

theorem isFloat64_bump (m : MetricMap) (k : List GoString) (v : Nat)
    (h : ∀ p ∈ m, IsFloat64 p.2) : ∀ p ∈ bump m k v, IsFloat64 p.2 := by
  intro p hp
  unfold bump modify at hp
  obtain ⟨p0, hp0, rfl⟩ := List.mem_map.1 hp
  have h0 : IsFloat64 p0.2 := by
    rcases mem_getOrCreate m k p0 hp0 with h1 | h1
    · exact h p0 h1
    · rw [h1]; exact isFloat64_zero
  by_cases hk : p0.1 = k
  · rw [if_pos hk]; exact isFloat64_roundF64 _
  · rw [if_neg hk]; exact h0

theorem mem_of_get? (m : MetricMap) (k : List GoString) (v : Nat)
    (h : get? m k = some v) : (k, v) ∈ m := by
  induction m with
  | nil => cases h
  | cons p m ih =>
    rw [get?_cons] at h
    by_cases hp : p.1 = k
    · rw [if_pos hp] at h
      have hv : p.2 = v := Option.some.inj h
      have : p = (k, v) := Prod.ext hp hv
      rw [this]; exact List.mem_cons_self _ _
    · rw [if_neg hp] at h
      exact List.mem_cons_of_mem _ (ih h)

theorem get?_of_mem (m : MetricMap) (hn : (keys m).Nodup)
    (k : List GoString) (v : Nat) (h : (k, v) ∈ m) : get? m k = some v := by
  induction m with
  | nil => cases h
  | cons p m ih =>
    have hn2 : p.1 ∉ keys m ∧ (keys m).Nodup := by
      simpa [keys] using hn
    rw [get?_cons]
    rcases List.mem_cons.1 h with h1 | h1
    · rw [← h1]; simp
    · have hk : k ∈ keys m := List.mem_map.2 ⟨(k, v), h1, rfl⟩
      have hne : ¬ p.1 = k := fun e => hn2.1 (e ▸ hk)
      rw [if_neg hne]
      exact ih hn2.2 h1

theorem isFloat64_getD (m : MetricMap) (k : List GoString)
    (h : ∀ p ∈ m, IsFloat64 p.2) : IsFloat64 ((get? m k).getD 0) := by
  cases hg : get? m k with
  | none => exact isFloat64_zero
  | some v => exact h (k, v) (mem_of_get? m k v hg)

end MetricMap

namespace CounterVec

theorem value_bump (cv : CounterVec) (k k2 : List GoString) (v : Nat) :
    value { cv with metrics := cv.metrics.bump k v } k2
      = if k2 = k then roundF64 (cv.value k + v) else cv.value k2 := by
  simp only [value, get?, MetricMap.get?_bump]
  by_cases h : k2 = k <;> simp [h]

theorem present_iff (cv : CounterVec) (k : List GoString) :
    cv.present k = true ↔ k ∈ cv.metrics.keys :=
  MetricMap.get?_isSome_iff cv.metrics k

theorem get?_eq (cv : CounterVec) (k : List GoString) :
    cv.get? k = if cv.present k = true then some (cv.value k) else none := by
  unfold present value
  cases cv.get? k <;> simp

end CounterVec

/-! ## Lemmas on `Trace` -/

theorem validString_FormatBool (b : Bool) : ValidString (FormatBool b) = true := by
  cases b <;> decide

theorem FormatBool_injective (a b : Bool) (h : FormatBool a = FormatBool b) : a = b := by
  revert h; cases a <;> cases b <;> decide

theorem float64_nonneg (n : Nat) : ¬ (float64 n < 0) :=
  not_lt.mpr (Int.ofNat_nonneg _)

theorem float64_toNat (n : Nat) : (float64 n).toNat = roundF64 n := Int.toNat_ofNat _

namespace WhisperEnvelopeTracer

variable {TopicType EnvelopeSource : Type}

theorem Trace_valid (w : Whisper TopicType EnvelopeSource) (g : Globals)
    (e : EnvelopeMeta TopicType EnvelopeSource) (hg : g.WF)
    (hv : validLabels w e = true) :
    Trace w g (some e) = (traced w g e, none) := by
  obtain ⟨h1, h2, _, _⟩ := hg
  have hf : List.find? (fun v => !ValidString v)
      [w.TopicString e.Topic, w.SourceString e, FormatBool e.IsNew, e.Peer] = none := by
    rw [List.find?_eq_none]
    intro x hx
    have := List.all_eq_true.1 hv x hx
    simp [this]
  simp only [Trace, CounterVec.WithLabelValues, h1, h2, envelopeCounter, envelopeVolume,
    NewCounterVec, List.length_cons, List.length_nil, if_true, hf, Counter.Inc, Counter.Add,
    float64_nonneg, if_false, float64_toNat, traced, labelKey, MetricMap.bump]

theorem Trace_invalid (w : Whisper TopicType EnvelopeSource) (g : Globals)
    (e : EnvelopeMeta TopicType EnvelopeSource) (hg : g.WF)
    (hv : validLabels w e = false) :
    ∃ v, v ∈ labelKey w e ∧ ValidString v = false ∧
      Trace w g (some e) = (g, some (.invalidLabelValue v)) := by
  obtain ⟨h1, _, _, _⟩ := hg
  cases hf : List.find? (fun v => !ValidString v)
      [w.TopicString e.Topic, w.SourceString e, FormatBool e.IsNew, e.Peer] with
  | none =>
    rw [List.find?_eq_none] at hf
    have : validLabels w e = true := by
      unfold validLabels labelKey
      rw [List.all_eq_true]
      intro x hx
      simpa using hf x hx
    rw [this] at hv; cases hv
  | some v =>
    have hmem := List.mem_of_find?_eq_some hf
    have hp := List.find?_some hf
    refine ⟨v, hmem, by simpa using hp, ?_⟩
    simp only [Trace, CounterVec.WithLabelValues, h1, envelopeCounter,
      NewCounterVec, List.length_cons, List.length_nil, if_true, hf]

theorem traced_WF (w : Whisper TopicType EnvelopeSource) (g : Globals)
    (e : EnvelopeMeta TopicType EnvelopeSource) (hg : g.WF) : (traced w g e).WF :=
  ⟨hg.1, hg.2.1, MetricMap.isFloat64_bump _ _ _ hg.2.2.1,
    MetricMap.isFloat64_bump _ _ _ hg.2.2.2⟩

theorem fresh_WF : Globals.fresh.WF :=
  ⟨rfl, rfl, fun _ h => (by cases h), fun _ h => (by cases h)⟩

theorem tracedAll_cons (w : Whisper TopicType EnvelopeSource) (g : Globals)
    (e : EnvelopeMeta TopicType EnvelopeSource)
    (es : List (EnvelopeMeta TopicType EnvelopeSource)) :
    tracedAll w g (e :: es) = tracedAll w (traced w g e) es := rfl

theorem tracedAll_append (w : Whisper TopicType EnvelopeSource) (g : Globals)
    (es es2 : List (EnvelopeMeta TopicType EnvelopeSource)) :
    tracedAll w g (es ++ es2) = tracedAll w (tracedAll w g es) es2 :=
  List.foldl_append _ _ _ _

theorem tracedAll_WF (w : Whisper TopicType EnvelopeSource)
    (es : List (EnvelopeMeta TopicType EnvelopeSource)) (g : Globals) (hg : g.WF) :
    (tracedAll w g es).WF := by
  induction es generalizing g with
  | nil => exact hg
  | cons e es ih => exact ih _ (traced_WF w g e hg)

theorem TraceAll_state (w : Whisper TopicType EnvelopeSource)
    (es : List (EnvelopeMeta TopicType EnvelopeSource)) (g : Globals) (hg : g.WF) :
    (TraceAll w g es).1 = tracedAll w g (recorded w es) := by
  induction es generalizing g with
  | nil => rfl
  | cons e es ih =>
    cases hv : validLabels w e with
    | true =>
      have hr : recorded w (e :: es) = e :: recorded w es := by
        simp [recorded, List.takeWhile_cons, hv]
      simp only [TraceAll, Trace_valid w g e hg hv, hr, tracedAll_cons]
      exact ih _ (traced_WF w g e hg)
    | false =>
      have hr : recorded w (e :: es) = [] := by
        simp [recorded, List.takeWhile_cons, hv]
      obtain ⟨v, _, _, ht⟩ := Trace_invalid w g e hg hv
      simp only [TraceAll, ht, hr]
      rfl

theorem TraceAll_outcome (w : Whisper TopicType EnvelopeSource)
    (es : List (EnvelopeMeta TopicType EnvelopeSource)) (g : Globals) (hg : g.WF) :
    ((TraceAll w g es).2 = none ↔ ∀ e ∈ es, validLabels w e = true) ∧
    ((TraceAll w g es).2 = none ∨ ∃ v, ValidString v = false ∧
      (TraceAll w g es).2 = some (.invalidLabelValue v)) := by
  induction es generalizing g with
  | nil => simp [TraceAll]
  | cons e es ih =>
    cases hv : validLabels w e with
    | true =>
      obtain ⟨ih1, ih2⟩ := ih _ (traced_WF w g e hg)
      simp only [TraceAll, Trace_valid w g e hg hv, List.mem_cons, forall_eq_or_imp, hv,
        true_and]
      exact ⟨ih1, ih2⟩
    | false =>
      obtain ⟨v, _, hvv, ht⟩ := Trace_invalid w g e hg hv
      simp only [TraceAll, ht, List.mem_cons, forall_eq_or_imp, hv]
      refine ⟨by simp, Or.inr ⟨v, hvv, rfl⟩⟩

theorem recorded_eq_self (w : Whisper TopicType EnvelopeSource)
    (es : List (EnvelopeMeta TopicType EnvelopeSource))
    (h : ∀ e ∈ es, validLabels w e = true) : recorded w es = es := by
  unfold recorded
  rw [List.takeWhile_eq_self_iff]
  exact h

theorem TraceAll_valid (w : Whisper TopicType EnvelopeSource)
    (es : List (EnvelopeMeta TopicType EnvelopeSource)) (g : Globals) (hg : g.WF)
    (h : ∀ e ∈ es, validLabels w e = true) :
    TraceAll w g es = (tracedAll w g es, none) := by
  have h1 := TraceAll_state w es g hg
  have h2 := ((TraceAll_outcome w es g hg).1).2 h
  rw [recorded_eq_self w es h] at h1
  exact Prod.ext h1 h2

theorem withKey_cons (w : Whisper TopicType EnvelopeSource)
    (e : EnvelopeMeta TopicType EnvelopeSource)
    (es : List (EnvelopeMeta TopicType EnvelopeSource)) (k : List GoString) :
    withKey w (e :: es) k = if labelKey w e = k then e :: withKey w es k else withKey w es k := by
  unfold withKey
  by_cases h : labelKey w e = k <;> simp [List.filter_cons, h]

theorem withKey_eq_self (w : Whisper TopicType EnvelopeSource)
    (es : List (EnvelopeMeta TopicType EnvelopeSource)) (k : List GoString)
    (h : ∀ e ∈ es, labelKey w e = k) : withKey w es k = es := by
  unfold withKey
  rw [List.filter_eq_self]
  intro e he
  simp [h e he]

theorem totalSize_cons (e : EnvelopeMeta TopicType EnvelopeSource)
    (es : List (EnvelopeMeta TopicType EnvelopeSource)) :
    totalSize (e :: es) = e.Size + totalSize es := by
  simp [totalSize]

theorem totalSize_append (es es2 : List (EnvelopeMeta TopicType EnvelopeSource)) :
    totalSize (es ++ es2) = totalSize es + totalSize es2 := by
  simp [totalSize]

theorem totalSize_replicate (n : Nat) (e : EnvelopeMeta TopicType EnvelopeSource) :
    totalSize (List.replicate n e) = n * e.Size := by
  induction n with
  | zero => simp [totalSize]
  | succ n ih => rw [List.replicate_succ, totalSize_cons, ih]; ring

theorem tracedAll_count (w : Whisper TopicType EnvelopeSource)
    (es : List (EnvelopeMeta TopicType EnvelopeSource)) (g : Globals) (k : List GoString)
    (hb : g.envelopeCounter.value k + (withKey w es k).length ≤ 2 ^ 53) :
    (tracedAll w g es).envelopeCounter.value k
      = g.envelopeCounter.value k + (withKey w es k).length := by
  induction es generalizing g with
  | nil => simp [tracedAll, withKey]
  | cons e es ih =>
    rw [withKey_cons] at hb ⊢
    rw [tracedAll_cons]
    by_cases h : labelKey w e = k
    · rw [if_pos h] at hb ⊢
      rw [List.length_cons] at hb ⊢
      have hv : (traced w g e).envelopeCounter.value k = g.envelopeCounter.value k + 1 := by
        simp only [traced, CounterVec.value_bump, h, if_true]
        exact roundF64_of_le (by omega)
      rw [ih _ (by rw [hv]; omega), hv]
      omega
    · rw [if_neg h] at hb ⊢
      have h2 : ¬ k = labelKey w e := fun h3 => h h3.symm
      have hv : (traced w g e).envelopeCounter.value k = g.envelopeCounter.value k := by
        simp only [traced, CounterVec.value_bump, h2, if_false]
      rw [ih _ (by rw [hv]; exact hb), hv]

theorem tracedAll_volume (w : Whisper TopicType EnvelopeSource)
    (es : List (EnvelopeMeta TopicType EnvelopeSource)) (g : Globals) (k : List GoString)
    (hb : g.envelopeVolume.value k + totalSize (withKey w es k) ≤ 2 ^ 53) :
    (tracedAll w g es).envelopeVolume.value k
      = g.envelopeVolume.value k + totalSize (withKey w es k) := by
  induction es generalizing g with
  | nil => simp [tracedAll, withKey, totalSize]
  | cons e es ih =>
    rw [withKey_cons] at hb ⊢
    rw [tracedAll_cons]
    by_cases h : labelKey w e = k
    · rw [if_pos h] at hb ⊢
      rw [totalSize_cons] at hb ⊢
      have hs : roundF64 e.Size = e.Size := roundF64_of_le (by omega)
      have hv : (traced w g e).envelopeVolume.value k
          = g.envelopeVolume.value k + e.Size := by
        simp only [traced, CounterVec.value_bump, h, if_true, hs]
        exact roundF64_of_le (by omega)
      rw [ih _ (by rw [hv]; omega), hv]
      omega
    · rw [if_neg h] at hb ⊢
      have h2 : ¬ k = labelKey w e := fun h3 => h h3.symm
      have hv : (traced w g e).envelopeVolume.value k = g.envelopeVolume.value k := by
        simp only [traced, CounterVec.value_bump, h2, if_false]
      rw [ih _ (by rw [hv]; exact hb), hv]

theorem traced_mono (w : Whisper TopicType EnvelopeSource) (g : Globals)
    (e : EnvelopeMeta TopicType EnvelopeSource) (hg : g.WF) (k : List GoString) :
    g.envelopeCounter.value k ≤ (traced w g e).envelopeCounter.value k ∧
    g.envelopeVolume.value k ≤ (traced w g e).envelopeVolume.value k := by
  simp only [traced, CounterVec.value_bump]
  by_cases h : k = labelKey w e
  · subst h
    simp only [if_true]
    exact ⟨le_roundF64 (MetricMap.isFloat64_getD _ _ hg.2.2.1) (Nat.le_add_right _ _),
      le_roundF64 (MetricMap.isFloat64_getD _ _ hg.2.2.2) (Nat.le_add_right _ _)⟩
  · simp only [h, if_false]
    exact ⟨le_refl _, le_refl _⟩

theorem tracedAll_mono (w : Whisper TopicType EnvelopeSource)
    (es : List (EnvelopeMeta TopicType EnvelopeSource)) (g : Globals) (hg : g.WF)
    (k : List GoString) :
    g.envelopeCounter.value k ≤ (tracedAll w g es).envelopeCounter.value k ∧
    g.envelopeVolume.value k ≤ (tracedAll w g es).envelopeVolume.value k := by
  induction es generalizing g with
  | nil => exact ⟨le_refl _, le_refl _⟩
  | cons e es ih =>
    obtain ⟨h1, h2⟩ := traced_mono w g e hg k
    obtain ⟨h3, h4⟩ := ih _ (traced_WF w g e hg)
    rw [tracedAll_cons]
    exact ⟨le_trans h1 h3, le_trans h2 h4⟩

theorem tracedAll_counter_keys (w : Whisper TopicType EnvelopeSource)
    (es : List (EnvelopeMeta TopicType EnvelopeSource)) (g : Globals) (k : List GoString) :
    k ∈ (tracedAll w g es).envelopeCounter.metrics.keys
      ↔ k ∈ g.envelopeCounter.metrics.keys ∨ k ∈ es.map (labelKey w) := by
  induction es generalizing g with
  | nil => simp [tracedAll]
  | cons e es ih =>
    rw [tracedAll_cons, ih]
    simp only [traced, MetricMap.mem_keys_bump, List.map_cons, List.mem_cons]
    tauto

theorem tracedAll_volume_keys (w : Whisper TopicType EnvelopeSource)
    (es : List (EnvelopeMeta TopicType EnvelopeSource)) (g : Globals) (k : List GoString) :
    k ∈ (tracedAll w g es).envelopeVolume.metrics.keys
      ↔ k ∈ g.envelopeVolume.metrics.keys ∨ k ∈ es.map (labelKey w) := by
  induction es generalizing g with
  | nil => simp [tracedAll]
  | cons e es ih =>
    rw [tracedAll_cons, ih]
    simp only [traced, MetricMap.mem_keys_bump, List.map_cons, List.mem_cons]
    tauto

theorem tracedAll_nodup (w : Whisper TopicType EnvelopeSource)
    (es : List (EnvelopeMeta TopicType EnvelopeSource)) (g : Globals)
    (h1 : g.envelopeCounter.metrics.keys.Nodup) (h2 : g.envelopeVolume.metrics.keys.Nodup) :
    (tracedAll w g es).envelopeCounter.metrics.keys.Nodup ∧
      (tracedAll w g es).envelopeVolume.metrics.keys.Nodup := by
  induction es generalizing g with
  | nil => exact ⟨h1, h2⟩
  | cons e es ih =>
    exact ih (traced w g e) (MetricMap.nodup_keys_bump _ _ _ h1)
      (MetricMap.nodup_keys_bump _ _ _ h2)

end WhisperEnvelopeTracer

/-! ## Lemmas on the exposition -/

theorem Gather_filter_counter (g : Globals) (hg : g.WF) :
    (Gather g).filter (fun s => s.name = "envelope_counter") = g.envelopeCounter.Collect := by
  obtain ⟨h1, h2, _, _⟩ := hg
  have hne : ¬ ("envelope_volume" = "envelope_counter") := by decide
  have hc : g.envelopeCounter.desc.fqName = "envelope_counter" := by rw [h1]; rfl
  have hv : g.envelopeVolume.desc.fqName = "envelope_volume" := by rw [h2]; rfl
  unfold Gather
  rw [List.filter_append]
  have ha : g.envelopeCounter.Collect.filter (fun s => s.name = "envelope_counter")
      = g.envelopeCounter.Collect := by
    rw [List.filter_eq_self]
    intro s hs
    obtain ⟨p, _, rfl⟩ := List.mem_map.1 hs
    simp [hc]
  have hb : g.envelopeVolume.Collect.filter (fun s => s.name = "envelope_counter") = [] := by
    rw [List.filter_eq_nil_iff]
    intro s hs
    obtain ⟨p, _, rfl⟩ := List.mem_map.1 hs
    simp [hv, hne]
  rw [ha, hb, List.append_nil]

theorem Gather_filter_volume (g : Globals) (hg : g.WF) :
    (Gather g).filter (fun s => s.name = "envelope_volume") = g.envelopeVolume.Collect := by
  obtain ⟨h1, h2, _, _⟩ := hg
  have hne : ¬ ("envelope_counter" = "envelope_volume") := by decide
  have hc : g.envelopeCounter.desc.fqName = "envelope_counter" := by rw [h1]; rfl
  have hv : g.envelopeVolume.desc.fqName = "envelope_volume" := by rw [h2]; rfl
  unfold Gather
  rw [List.filter_append]
  have ha : g.envelopeVolume.Collect.filter (fun s => s.name = "envelope_volume")
      = g.envelopeVolume.Collect := by
    rw [List.filter_eq_self]
    intro s hs
    obtain ⟨p, _, rfl⟩ := List.mem_map.1 hs
    simp [hv]
  have hb : g.envelopeCounter.Collect.filter (fun s => s.name = "envelope_volume") = [] := by
    rw [List.filter_eq_nil_iff]
    intro s hs
    obtain ⟨p, _, rfl⟩ := List.mem_map.1 hs
    simp [hc, hne]
  rw [ha, hb, List.nil_append]

theorem length_eq_dedup_length (l l2 : List (List GoString)) (hn : l.Nodup)
    (hm : ∀ k, k ∈ l ↔ k ∈ l2) : l.length = l2.dedup.length := by
  have hp : l.Perm l2.dedup :=
    (List.perm_ext_iff_of_nodup hn (List.nodup_dedup l2)).2
      (fun k => by rw [hm k, List.mem_dedup])
  exact hp.length_eq

/-! ## A reachable state whose volume cell is `2^53` -/

namespace WhisperEnvelopeTracer

theorem roundF64_one : roundF64 1 = 1 := by decide

theorem roundF64_zero_add (n : Nat) : roundF64 (0 + roundF64 n) = roundF64 n := by
  rw [Nat.zero_add]; exact isFloat64_roundF64 n

theorem value_fresh (k : List GoString) :
    Globals.fresh.envelopeCounter.value k = 0 ∧ Globals.fresh.envelopeVolume.value k = 0 :=
  ⟨rfl, rfl⟩

theorem saturating_valid (n : Nat) :
    ∀ e ∈ List.replicate n obsBig ++ [obsMid],
      validLabels demoWhisper e = true ∧ labelKey demoWhisper e = keyA := by
  intro e he
  rcases List.mem_append.1 he with h | h
  · rw [(List.mem_replicate.1 h).2]; exact ⟨by decide, by decide⟩
  · rw [List.mem_singleton.1 h]; exact ⟨by decide, by decide⟩

theorem saturating_state :
    TraceAll demoWhisper Globals.fresh (List.replicate (2 ^ 21) obsBig ++ [obsMid])
      = (tracedAll demoWhisper Globals.fresh (List.replicate (2 ^ 21) obsBig ++ [obsMid]),
          none) ∧
    (tracedAll demoWhisper Globals.fresh
      (List.replicate (2 ^ 21) obsBig ++ [obsMid])).envelopeVolume.value keyA = 2 ^ 53 := by
  have hall := saturating_valid (2 ^ 21)
  refine ⟨TraceAll_valid _ _ _ fresh_WF (fun e he => (hall e he).1), ?_⟩
  have hk : withKey demoWhisper (List.replicate (2 ^ 21) obsBig ++ [obsMid]) keyA
      = List.replicate (2 ^ 21) obsBig ++ [obsMid] :=
    withKey_eq_self _ _ _ (fun e he => (hall e he).2)
  have hs : totalSize (List.replicate (2 ^ 21) obsBig ++ [obsMid]) = 2 ^ 53 := by
    rw [totalSize_append, totalSize_replicate, totalSize_cons]
    show 2 ^ 21 * 4294967295 + (2097152 + 0) = 2 ^ 53
    norm_num
  rw [tracedAll_volume _ _ _ _ (by rw [hk, hs, (value_fresh keyA).2]; norm_num), hk, hs,
    (value_fresh keyA).2]
  norm_num

theorem saturated_step (g : Globals) (hg : g.WF)
    (hv : g.envelopeVolume.value keyA = 2 ^ 53) :
    Trace demoWhisper g (some obsOne) = (traced demoWhisper g obsOne, none) ∧
    (traced demoWhisper g obsOne).envelopeVolume.value keyA = 2 ^ 53 := by
  refine ⟨Trace_valid _ _ _ hg (by decide), ?_⟩
  have hk : labelKey demoWhisper obsOne = keyA := by decide
  have h1 : roundF64 obsOne.Size = 1 := by decide
  simp only [traced, CounterVec.value_bump, hk, if_true, h1, hv]
  exact roundF64_tie

end WhisperEnvelopeTracer

/-! ## The claims -/

open WhisperEnvelopeTracer

/-- C1 as stated fails, at two inputs.  An observation whose peer is the byte `0xff` makes
`Trace` panic and nothing is counted.  And in the state reached from the fresh one by
`2^21` observations of size `2^32 - 1` and one of size `2^21`, all with one key, the volume
of that key is `2^53`; `Trace` of an observation of size 1 with that key completes and the
volume is still `2^53`, not `2^53 + 1`. -/
theorem Trace_increments_fails :
    (Trace demoWhisper Globals.fresh (some obsBadPeer)
        = (Globals.fresh, some (.invalidLabelValue [0xff])) ∧
      (Trace demoWhisper Globals.fresh (some obsBadPeer)).1.envelopeCounter.value
          (labelKey demoWhisper obsBadPeer)
        ≠ Globals.fresh.envelopeCounter.value (labelKey demoWhisper obsBadPeer) + 1) ∧
    (∃ g, TraceAll demoWhisper Globals.fresh (List.replicate (2 ^ 21) obsBig ++ [obsMid])
        = (g, none) ∧ g.WF ∧
      labelKey demoWhisper obsOne = keyA ∧
      g.envelopeVolume.value keyA = 2 ^ 53 ∧
      (Trace demoWhisper g (some obsOne)).2 = none ∧
      (Trace demoWhisper g (some obsOne)).1.envelopeVolume.value keyA = 2 ^ 53 ∧
      (Trace demoWhisper g (some obsOne)).1.envelopeVolume.value keyA
        ≠ g.envelopeVolume.value keyA + obsOne.Size) := by
  refine ⟨⟨by decide, by decide⟩, ?_⟩
  obtain ⟨h1, h2⟩ := saturating_state
  have hwf := tracedAll_WF demoWhisper (List.replicate (2 ^ 21) obsBig ++ [obsMid])
    Globals.fresh fresh_WF
  obtain ⟨h3, h4⟩ := saturated_step _ hwf h2
  refine ⟨_, h1, hwf, by decide, h2, ?_, ?_, ?_⟩
  · rw [h3]
  · rw [h3]; exact h4
  · rw [h3, h4, h2]
    show (2 : Nat) ^ 53 ≠ 2 ^ 53 + 1
    norm_num

/-- C1, amended: from every counter state with the declared descriptors and `float64`
cells, `Trace` of an observation `e` whose four label values are valid UTF-8 completes and
replaces the count at the key `(Topic.String(), SourceString(), FormatBool(IsNew), Peer)`
by the `float64` sum of its value and 1, and the volume at the same key by the `float64`
sum of its value and `float64(e.Size)`; these are increments by exactly 1 and exactly
`e.Size` whenever the new value is at most `2^53`; a key absent before counts as 0 and is
present afterwards.  When a label value is not valid UTF-8, `Trace` panics and leaves the
state as it was. -/
theorem Trace_increments {TopicType EnvelopeSource : Type}
    (w : Whisper TopicType EnvelopeSource) (g : Globals) (hg : g.WF)
    (e : EnvelopeMeta TopicType EnvelopeSource) :
    labelKey w e = [w.TopicString e.Topic, w.SourceString e, FormatBool e.IsNew, e.Peer] ∧
    (validLabels w e = true →
      (Trace w g (some e)).2 = none ∧
      (Trace w g (some e)).1.envelopeCounter.value (labelKey w e)
        = roundF64 (g.envelopeCounter.value (labelKey w e) + 1) ∧
      (Trace w g (some e)).1.envelopeVolume.value (labelKey w e)
        = roundF64 (g.envelopeVolume.value (labelKey w e) + roundF64 e.Size) ∧
      (g.envelopeCounter.value (labelKey w e) + 1 ≤ 2 ^ 53 →
        (Trace w g (some e)).1.envelopeCounter.value (labelKey w e)
          = g.envelopeCounter.value (labelKey w e) + 1) ∧
      (g.envelopeVolume.value (labelKey w e) + e.Size ≤ 2 ^ 53 →
        (Trace w g (some e)).1.envelopeVolume.value (labelKey w e)
          = g.envelopeVolume.value (labelKey w e) + e.Size) ∧
      (Trace w g (some e)).1.envelopeCounter.present (labelKey w e) = true ∧
      (Trace w g (some e)).1.envelopeVolume.present (labelKey w e) = true ∧
      (g.envelopeCounter.present (labelKey w e) = false →
        (Trace w g (some e)).1.envelopeCounter.get? (labelKey w e) = some 1) ∧
      (g.envelopeVolume.present (labelKey w e) = false → e.Size ≤ 2 ^ 53 →
        (Trace w g (some e)).1.envelopeVolume.get? (labelKey w e) = some e.Size)) ∧
    (validLabels w e = false →
      (Trace w g (some e)).1 = g ∧
      ∃ v, v ∈ labelKey w e ∧ ValidString v = false ∧
        (Trace w g (some e)).2 = some (.invalidLabelValue v)) := by
  refine ⟨rfl, ?_, ?_⟩
  · intro hv
    rw [Trace_valid w g e hg hv]
    refine ⟨rfl, ?_, ?_, ?_, ?_, ?_, ?_, ?_, ?_⟩
    · simp [traced, CounterVec.value_bump]
    · simp [traced, CounterVec.value_bump]
    · intro hb
      simp only [traced, CounterVec.value_bump, if_true]
      exact roundF64_of_le hb
    · intro hb
      have hs : roundF64 e.Size = e.Size := roundF64_of_le (by omega)
      simp only [traced, CounterVec.value_bump, if_true, hs]
      exact roundF64_of_le hb
    · rw [CounterVec.present_iff]
      simp [traced, MetricMap.mem_keys_bump]
    · rw [CounterVec.present_iff]
      simp [traced, MetricMap.mem_keys_bump]
    · intro h
      have h0 : g.envelopeCounter.metrics.get? (labelKey w e) = none := by
        simpa [CounterVec.present, CounterVec.get?] using h
      simp [traced, CounterVec.get?, MetricMap.get?_bump, h0, roundF64_one]
    · intro h hb
      have h0 : g.envelopeVolume.metrics.get? (labelKey w e) = none := by
        simpa [CounterVec.present, CounterVec.get?] using h
      have hs : roundF64 e.Size = e.Size := roundF64_of_le hb
      simp [traced, CounterVec.get?, MetricMap.get?_bump, h0, hs]
  · intro hv
    obtain ⟨v, h1, h2, h3⟩ := Trace_invalid w g e hg hv
    rw [h3]
    exact ⟨rfl, v, h1, h2, rfl⟩

/-- C1, amended, at the fresh state and the observation `(topicA, peer1, true, size=10)`. -/
theorem Trace_increments_witness :
    Globals.fresh.WF ∧ validLabels demoWhisper obsA = true ∧
    (Trace demoWhisper Globals.fresh (some obsA)).2 = none ∧
    (Trace demoWhisper Globals.fresh (some obsA)).1.envelopeCounter.get?
        [lit "topicA", lit "peer", lit "true", lit "peer1"] = some 1 ∧
    (Trace demoWhisper Globals.fresh (some obsA)).1.envelopeVolume.get?
        [lit "topicA", lit "peer", lit "true", lit "peer1"] = some 10 := by
  obtain ⟨_, h, _⟩ := Trace_increments demoWhisper Globals.fresh (by decide) obsA
  obtain ⟨h0, _, _, _, _, _, _, h1, h2⟩ := h (by decide)
  exact ⟨by decide, by decide, h0, h1 (by decide), h2 (by decide) (by decide)⟩

/-- C2: key isolation.  `Trace` of `e` leaves the child of every label tuple `k` other than
the key of `e` as it was in both vectors: same presence, same value, whether the call
completes or panics; it completes when the label values of `e` are valid UTF-8.  From the
fresh state, recording `(topicA, peer1, true, size=10)` then `(topicB, peer1, true,
size=20)` gives counts 1 and 1 and volumes 10 and 20. -/
theorem Trace_key_isolation {TopicType EnvelopeSource : Type}
    (w : Whisper TopicType EnvelopeSource) (g : Globals) (hg : g.WF)
    (e : EnvelopeMeta TopicType EnvelopeSource) (k : List GoString) (hk : k ≠ labelKey w e) :
    ((Trace w g (some e)).1.envelopeCounter.get? k = g.envelopeCounter.get? k ∧
      (Trace w g (some e)).1.envelopeVolume.get? k = g.envelopeVolume.get? k ∧
      (Trace w g (some e)).1.envelopeCounter.value k = g.envelopeCounter.value k ∧
      (Trace w g (some e)).1.envelopeVolume.value k = g.envelopeVolume.value k) ∧
    (validLabels w e = true → (Trace w g (some e)).2 = none) ∧
    (∃ g3, TraceAll demoWhisper Globals.fresh [obsA, obsB] = (g3, none) ∧
      g3.envelopeCounter.get? [lit "topicA", lit "peer", lit "true", lit "peer1"] = some 1 ∧
      g3.envelopeCounter.get? [lit "topicB", lit "peer", lit "true", lit "peer1"] = some 1 ∧
      g3.envelopeVolume.get? [lit "topicA", lit "peer", lit "true", lit "peer1"] = some 10 ∧
      g3.envelopeVolume.get? [lit "topicB", lit "peer", lit "true", lit "peer1"] = some 20) := by
  refine ⟨?_, fun hv => by rw [Trace_valid w g e hg hv], ?_⟩
  · cases hv : validLabels w e with
    | true =>
      rw [Trace_valid w g e hg hv]
      refine ⟨?_, ?_, ?_, ?_⟩
      · simp [traced, CounterVec.get?, MetricMap.get?_bump, hk]
      · simp [traced, CounterVec.get?, MetricMap.get?_bump, hk]
      · simp [traced, CounterVec.value_bump, hk]
      · simp [traced, CounterVec.value_bump, hk]
    | false =>
      obtain ⟨v, _, _, h3⟩ := Trace_invalid w g e hg hv
      rw [h3]
      exact ⟨rfl, rfl, rfl, rfl⟩
  · exact ⟨(TraceAll demoWhisper Globals.fresh [obsA, obsB]).1, by decide, by decide,
      by decide, by decide, by decide⟩

/-- C2 at the state reached by recording `obsA`, for the observation `obsB` and the key of
`obsA`. -/
theorem Trace_key_isolation_witness :
    (Trace demoWhisper (traced demoWhisper Globals.fresh obsA) (some obsB)).2 = none ∧
    (Trace demoWhisper (traced demoWhisper Globals.fresh obsA)
        (some obsB)).1.envelopeCounter.get?
      [lit "topicA", lit "peer", lit "true", lit "peer1"] = some 1 ∧
    (Trace demoWhisper (traced demoWhisper Globals.fresh obsA)
        (some obsB)).1.envelopeVolume.get?
      [lit "topicA", lit "peer", lit "true", lit "peer1"] = some 10 := by
  obtain ⟨⟨h1, h2, _, _⟩, h3, _⟩ :=
    Trace_key_isolation demoWhisper (traced demoWhisper Globals.fresh obsA) (by decide) obsB
      [lit "topicA", lit "peer", lit "true", lit "peer1"] (by decide)
  refine ⟨h3 (by decide), ?_, ?_⟩
  · rw [h1]; decide
  · rw [h2]; decide

/-- C3: monotonicity.  From every counter state with the declared descriptors and `float64`
cells, a finite sequence of `Trace` calls leaves, for every label tuple `k`, both counters
at least as high as before (no decrease, no reset) and keeps every child that was present;
every increment is non-negative; the sequence completes when all label values are valid
UTF-8, and otherwise stops at the first panic with the same guarantees. -/
theorem TraceAll_monotone {TopicType EnvelopeSource : Type}
    (w : Whisper TopicType EnvelopeSource) (g : Globals) (hg : g.WF)
    (es : List (EnvelopeMeta TopicType EnvelopeSource)) (k : List GoString) :
    (∀ e ∈ es, 0 ≤ float64 e.Size) ∧
    g.envelopeCounter.value k ≤ (TraceAll w g es).1.envelopeCounter.value k ∧
    g.envelopeVolume.value k ≤ (TraceAll w g es).1.envelopeVolume.value k ∧
    (g.envelopeCounter.present k = true →
      (TraceAll w g es).1.envelopeCounter.present k = true) ∧
    (g.envelopeVolume.present k = true →
      (TraceAll w g es).1.envelopeVolume.present k = true) ∧
    ((∀ e ∈ es, validLabels w e = true) → (TraceAll w g es).2 = none) := by
  rw [TraceAll_state w es g hg]
  obtain ⟨h1, h2⟩ := tracedAll_mono w (recorded w es) g hg k
  refine ⟨fun e _ => Int.ofNat_nonneg _, h1, h2, ?_, ?_, ?_⟩
  · intro h
    rw [CounterVec.present_iff] at h ⊢
    exact (tracedAll_counter_keys w _ g k).2 (Or.inl h)
  · intro h
    rw [CounterVec.present_iff] at h ⊢
    exact (tracedAll_volume_keys w _ g k).2 (Or.inl h)
  · exact ((TraceAll_outcome w es g hg).1).2

/-- C3 at the state reached by recording `obsA`, for the calls `obsB`, `obsZero`, `obsA`. -/
theorem TraceAll_monotone_witness :
    (TraceAll demoWhisper (traced demoWhisper Globals.fresh obsA)
      [obsB, obsZero, obsA]).2 = none ∧
    1 ≤ (TraceAll demoWhisper (traced demoWhisper Globals.fresh obsA)
      [obsB, obsZero, obsA]).1.envelopeCounter.value
        [lit "topicA", lit "peer", lit "true", lit "peer1"] ∧
    10 ≤ (TraceAll demoWhisper (traced demoWhisper Globals.fresh obsA)
      [obsB, obsZero, obsA]).1.envelopeVolume.value
        [lit "topicA", lit "peer", lit "true", lit "peer1"] ∧
    (TraceAll demoWhisper (traced demoWhisper Globals.fresh obsA)
      [obsB, obsZero, obsA]).1.envelopeCounter.present
        [lit "topicA", lit "peer", lit "true", lit "peer1"] = true := by
  obtain ⟨_, h1, h2, h3, _, h5⟩ :=
    TraceAll_monotone demoWhisper (traced demoWhisper Globals.fresh obsA) (by decide)
      [obsB, obsZero, obsA] [lit "topicA", lit "peer", lit "true", lit "peer1"]
  exact ⟨h5 (by decide), h1, h2, h3 (by decide)⟩

/-- C4 as stated fails, at two lists.  From the fresh state, `2^21` observations of size
`2^32 - 1`, one of size `2^21` and one of size 1, all with one key, are all recorded, their
sizes sum to `2^53 + 1`, and the volume of the key is `2^53`.  And the one-element list
whose observation has the peer byte `0xff` leaves the count of its key at 0, not 1. -/
theorem TraceAll_fresh_totals_fails :
    ((TraceAll demoWhisper Globals.fresh
        (List.replicate (2 ^ 21) obsBig ++ [obsMid, obsOne])).2 = none ∧
      totalSize (withKey demoWhisper
        (List.replicate (2 ^ 21) obsBig ++ [obsMid, obsOne]) keyA) = 2 ^ 53 + 1 ∧
      (TraceAll demoWhisper Globals.fresh
        (List.replicate (2 ^ 21) obsBig ++ [obsMid, obsOne])).1.envelopeVolume.value keyA
        = 2 ^ 53) ∧
    ((withKey demoWhisper [obsBadPeer] (labelKey demoWhisper obsBadPeer)).length = 1 ∧
      (TraceAll demoWhisper Globals.fresh [obsBadPeer]).1.envelopeCounter.value
        (labelKey demoWhisper obsBadPeer) = 0) := by
  refine ⟨?_, by decide, by decide⟩
  have hsplit : List.replicate (2 ^ 21) obsBig ++ [obsMid, obsOne]
      = (List.replicate (2 ^ 21) obsBig ++ [obsMid]) ++ [obsOne] := by
    rw [List.append_assoc]; rfl
  have hall : ∀ e ∈ (List.replicate (2 ^ 21) obsBig ++ [obsMid]) ++ [obsOne],
      validLabels demoWhisper e = true ∧ labelKey demoWhisper e = keyA := by
    intro e he
    rcases List.mem_append.1 he with h | h
    · exact saturating_valid _ e h
    · rw [List.mem_singleton.1 h]; exact ⟨by decide, by decide⟩
  obtain ⟨_, h2⟩ := saturating_state
  have hwf := tracedAll_WF demoWhisper (List.replicate (2 ^ 21) obsBig ++ [obsMid])
    Globals.fresh fresh_WF
  obtain ⟨_, h4⟩ := saturated_step _ hwf h2
  rw [hsplit, TraceAll_valid _ _ _ fresh_WF (fun e he => (hall e he).1)]
  refine ⟨rfl, ?_, ?_⟩
  · rw [withKey_eq_self _ _ _ (fun e he => (hall e he).2), totalSize_append,
      totalSize_append, totalSize_replicate, totalSize_cons, totalSize_cons]
    show 2 ^ 21 * 4294967295 + (2097152 + 0) + (1 + 0) = 2 ^ 53 + 1
    norm_num
  · rw [tracedAll_append]
    exact h4

/-- C4, amended: from the fresh state, `Trace` of every observation of a finite list whose
label values are all valid UTF-8 completes, and for every label tuple `k` the count is the
number of observations with key `k` when that number is at most `2^53`, and the volume is
the sum of their sizes when that sum is at most `2^53`; under the same bounds a permutation
of the list leads to the same children with the same values; and N observations with one
key and size 1, N at most `2^53`, give count N and volume N. -/
theorem TraceAll_fresh_totals {TopicType EnvelopeSource : Type}
    (w : Whisper TopicType EnvelopeSource)
    (es : List (EnvelopeMeta TopicType EnvelopeSource))
    (hv : ∀ e ∈ es, validLabels w e = true) :
    (TraceAll w Globals.fresh es).2 = none ∧
    (∀ k,
      ((withKey w es k).length ≤ 2 ^ 53 →
        (TraceAll w Globals.fresh es).1.envelopeCounter.value k = (withKey w es k).length) ∧
      (totalSize (withKey w es k) ≤ 2 ^ 53 →
        (TraceAll w Globals.fresh es).1.envelopeVolume.value k
          = totalSize (withKey w es k))) ∧
    (∀ es2, es2.Perm es →
      (TraceAll w Globals.fresh es2).2 = none ∧
      ∀ k,
        (TraceAll w Globals.fresh es2).1.envelopeCounter.present k
          = (TraceAll w Globals.fresh es).1.envelopeCounter.present k ∧
        (TraceAll w Globals.fresh es2).1.envelopeVolume.present k
          = (TraceAll w Globals.fresh es).1.envelopeVolume.present k ∧
        ((withKey w es k).length ≤ 2 ^ 53 →
          (TraceAll w Globals.fresh es2).1.envelopeCounter.get? k
            = (TraceAll w Globals.fresh es).1.envelopeCounter.get? k) ∧
        (totalSize (withKey w es k) ≤ 2 ^ 53 →
          (TraceAll w Globals.fresh es2).1.envelopeVolume.get? k
            = (TraceAll w Globals.fresh es).1.envelopeVolume.get? k)) ∧
    (∀ k, (∀ e ∈ es, labelKey w e = k ∧ e.Size = 1) → es.length ≤ 2 ^ 53 →
      (TraceAll w Globals.fresh es).1.envelopeCounter.value k = es.length ∧
      (TraceAll w Globals.fresh es).1.envelopeVolume.value k = es.length) := by
  have hc0 : ∀ k, Globals.fresh.envelopeCounter.value k = 0 := fun _ => rfl
  have hv0 : ∀ k, Globals.fresh.envelopeVolume.value k = 0 := fun _ => rfl
  have hcount : ∀ (l : List (EnvelopeMeta TopicType EnvelopeSource)) k,
      (withKey w l k).length ≤ 2 ^ 53 →
      (tracedAll w Globals.fresh l).envelopeCounter.value k = (withKey w l k).length := by
    intro l k hb
    rw [tracedAll_count w l _ k (by rw [hc0]; omega), hc0, Nat.zero_add]
  have hvol : ∀ (l : List (EnvelopeMeta TopicType EnvelopeSource)) k,
      totalSize (withKey w l k) ≤ 2 ^ 53 →
      (tracedAll w Globals.fresh l).envelopeVolume.value k = totalSize (withKey w l k) := by
    intro l k hb
    rw [tracedAll_volume w l _ k (by rw [hv0]; omega), hv0, Nat.zero_add]
  rw [TraceAll_valid w es _ fresh_WF hv]
  refine ⟨rfl, fun k => ⟨hcount es k, hvol es k⟩, ?_, ?_⟩
  · intro es2 hp
    have hv2 : ∀ e ∈ es2, validLabels w e = true := fun e he => hv e (hp.mem_iff.1 he)
    rw [TraceAll_valid w es2 _ fresh_WF hv2]
    refine ⟨rfl, ?_⟩
    intro k
    have hw : (withKey w es2 k).Perm (withKey w es k) := hp.filter _
    have hm : k ∈ es2.map (labelKey w) ↔ k ∈ es.map (labelKey w) := (hp.map _).mem_iff
    have hpc : (tracedAll w Globals.fresh es2).envelopeCounter.present k
        = (tracedAll w Globals.fresh es).envelopeCounter.present k := by
      rw [Bool.eq_iff_iff, CounterVec.present_iff, CounterVec.present_iff,
        tracedAll_counter_keys, tracedAll_counter_keys, hm]
    have hpv : (tracedAll w Globals.fresh es2).envelopeVolume.present k
        = (tracedAll w Globals.fresh es).envelopeVolume.present k := by
      rw [Bool.eq_iff_iff, CounterVec.present_iff, CounterVec.present_iff,
        tracedAll_volume_keys, tracedAll_volume_keys, hm]
    have hs : totalSize (withKey w es2 k) = totalSize (withKey w es k) :=
      (hw.map _).sum_eq
    refine ⟨hpc, hpv, ?_, ?_⟩
    · intro hb
      show (tracedAll w Globals.fresh es2).envelopeCounter.get? k
        = (tracedAll w Globals.fresh es).envelopeCounter.get? k
      rw [CounterVec.get?_eq, CounterVec.get?_eq _ k, hpc, hcount es k hb,
        hcount es2 k (by rw [hw.length_eq]; exact hb), hw.length_eq]
    · intro hb
      show (tracedAll w Globals.fresh es2).envelopeVolume.get? k
        = (tracedAll w Globals.fresh es).envelopeVolume.get? k
      rw [CounterVec.get?_eq, CounterVec.get?_eq _ k, hpv, hvol es k hb,
        hvol es2 k (by rw [hs]; exact hb), hs]
  · intro k hall hlen
    have hwk : withKey w es k = es := withKey_eq_self w es k (fun e he => (hall e he).1)
    have hts : totalSize es = es.length := by
      have h1 : ∀ e ∈ es, e.Size = 1 := fun e he => (hall e he).2
      clear hwk hall hv hlen
      induction es with
      | nil => rfl
      | cons e es ih =>
        rw [totalSize_cons, ih (fun x hx => h1 x (List.mem_cons_of_mem _ hx)),
          h1 e (List.mem_cons_self _ _), List.length_cons]
        omega
    show (tracedAll w Globals.fresh es).envelopeCounter.value k = es.length ∧
      (tracedAll w Globals.fresh es).envelopeVolume.value k = es.length
    rw [hcount es k (by rw [hwk]; exact hlen), hvol es k (by rw [hwk, hts]; exact hlen),
      hwk, hts]
    exact ⟨rfl, rfl⟩

/-- C4, amended, for the list `obsA, obsB, obsA` and its reordering `obsB, obsA, obsA`. -/
theorem TraceAll_fresh_totals_witness :
    (TraceAll demoWhisper Globals.fresh [obsA, obsB, obsA]).2 = none ∧
    (TraceAll demoWhisper Globals.fresh [obsA, obsB, obsA]).1.envelopeCounter.value
      [lit "topicA", lit "peer", lit "true", lit "peer1"] = 2 ∧
    (TraceAll demoWhisper Globals.fresh [obsA, obsB, obsA]).1.envelopeVolume.value
      [lit "topicA", lit "peer", lit "true", lit "peer1"] = 20 ∧
    (TraceAll demoWhisper Globals.fresh [obsB, obsA, obsA]).1.envelopeCounter.get?
        [lit "topicB", lit "peer", lit "true", lit "peer1"]
      = (TraceAll demoWhisper Globals.fresh [obsA, obsB, obsA]).1.envelopeCounter.get?
        [lit "topicB", lit "peer", lit "true", lit "peer1"] := by
  obtain ⟨h, h1, h2, _⟩ :=
    TraceAll_fresh_totals demoWhisper [obsA, obsB, obsA] (by decide)
  obtain ⟨_, h4⟩ := h2 [obsB, obsA, obsA] (List.Perm.swap _ _ _)
  refine ⟨h, ?_, ?_, (h4 _).2.2.1 (by decide)⟩
  · rw [(h1 _).1 (by decide)]; decide
  · rw [(h1 _).2 (by decide)]; decide

/-- C5 as stated fails: the observation with size 0 (non-negative) and the peer byte `0xff`
makes `Trace` panic, in the fresh state. -/
theorem Trace_total_fails :
    obsBadPeer.Size = 0 ∧ 0 ≤ float64 obsBadPeer.Size ∧
    Trace demoWhisper Globals.fresh (some obsBadPeer)
      = (Globals.fresh, some (.invalidLabelValue [0xff])) ∧
    (Trace demoWhisper Globals.fresh (some obsBadPeer)).2 ≠ none := by
  refine ⟨rfl, by decide, by decide, by decide⟩

/-- C5, amended: `Trace` has no failure outcome on an observation whose four label values are
valid UTF-8.  From every counter state with the declared descriptors and `float64` cells it
completes for every such observation (its `Size` is non-negative, `Size = 0` and an empty
`Peer` included); a label value that is not valid UTF-8 is the one way it panics, the state
being left as it was.  Both vectors declare exactly the label names topic, source, is_new,
peer; `Trace` supplies four values, exposed as topic, source, is_new and peer in this order;
the volume increment is non-negative; so neither the label-arity panic nor the
negative-increment panic is reached, for any observation.  A zero-size observation adds 0 to
the volume of its key and 1 to its count, exactly as long as the count stays at most `2^53`. -/
theorem Trace_total {TopicType EnvelopeSource : Type}
    (w : Whisper TopicType EnvelopeSource) (g : Globals) (hg : g.WF)
    (e : EnvelopeMeta TopicType EnvelopeSource) :
    (validLabels w e = true →
      (Trace w g (some e)).2 = none ∧
      (e.Size = 0 →
        (Trace w g (some e)).1.envelopeVolume.value (labelKey w e)
          = g.envelopeVolume.value (labelKey w e) ∧
        (g.envelopeCounter.value (labelKey w e) + 1 ≤ 2 ^ 53 →
          (Trace w g (some e)).1.envelopeCounter.value (labelKey w e)
            = g.envelopeCounter.value (labelKey w e) + 1))) ∧
    (validLabels w e = false →
      (Trace w g (some e)).1 = g ∧
      ∃ v, v ∈ labelKey w e ∧ ValidString v = false ∧
        (Trace w g (some e)).2 = some (.invalidLabelValue v)) ∧
    (∀ expected got, (Trace w g (some e)).2 ≠ some (.inconsistentCardinality expected got)) ∧
    (Trace w g (some e)).2 ≠ some .counterCannotDecrease ∧
    (Trace w g (some e)).2 ≠ some .nilPointerDereference ∧
    envelopeCounter.desc.variableLabels = ["topic", "source", "is_new", "peer"] ∧
    envelopeVolume.desc.variableLabels = ["topic", "source", "is_new", "peer"] ∧
    0 ≤ float64 e.Size ∧
    (validLabels w e = true →
      Gather (Trace w Globals.fresh (some e)).1 =
        [⟨"envelope_counter", [("topic", w.TopicString e.Topic), ("source", w.SourceString e),
            ("is_new", FormatBool e.IsNew), ("peer", e.Peer)], 1⟩,
         ⟨"envelope_volume", [("topic", w.TopicString e.Topic), ("source", w.SourceString e),
            ("is_new", FormatBool e.IsNew), ("peer", e.Peer)], roundF64 e.Size⟩]) := by
  have hinv : validLabels w e = false →
      (Trace w g (some e)).1 = g ∧
      ∃ v, v ∈ labelKey w e ∧ ValidString v = false ∧
        (Trace w g (some e)).2 = some (.invalidLabelValue v) := by
    intro hv
    obtain ⟨v, h1, h2, h3⟩ := Trace_invalid w g e hg hv
    rw [h3]
    exact ⟨rfl, v, h1, h2, rfl⟩
  have hout : (Trace w g (some e)).2 = none ∨
      ∃ v, (Trace w g (some e)).2 = some (.invalidLabelValue v) := by
    cases hv : validLabels w e with
    | true => left; rw [Trace_valid w g e hg hv]
    | false =>
      obtain ⟨_, v, _, _, h3⟩ := hinv hv
      exact Or.inr ⟨v, h3⟩
  refine ⟨?_, hinv, ?_, ?_, ?_, rfl, rfl, Int.ofNat_nonneg _, ?_⟩
  · intro hv
    rw [Trace_valid w g e hg hv]
    refine ⟨rfl, ?_⟩
    intro h0
    constructor
    · have hz : roundF64 0 = 0 := by decide
      simp only [traced, CounterVec.value_bump, if_true, h0, hz, Nat.add_zero]
      exact MetricMap.isFloat64_getD _ _ hg.2.2.2
    · intro hb
      simp only [traced, CounterVec.value_bump, if_true]
      exact roundF64_of_le hb
  · intro a b hab
    rcases hout with h | ⟨v, h⟩
    · rw [h] at hab; cases hab
    · rw [h] at hab; cases hab
  · intro hab
    rcases hout with h | ⟨v, h⟩
    · rw [h] at hab; cases hab
    · rw [h] at hab; cases hab
  · intro hab
    rcases hout with h | ⟨v, h⟩
    · rw [h] at hab; cases hab
    · rw [h] at hab; cases hab
  · intro hv
    rw [Trace_valid w _ e fresh_WF hv]
    simp [Gather, CounterVec.Collect, traced, Globals.fresh, envelopeCounter, envelopeVolume,
      NewCounterVec, MetricMap.bump, MetricMap.getOrCreate, MetricMap.get?, MetricMap.modify,
      labelKey, roundF64_one]
    exact isFloat64_roundF64 e.Size

/-- C5, amended, at the fresh state and an observation of size zero with an empty peer. -/
theorem Trace_total_witness :
    Globals.fresh.WF ∧ validLabels demoWhisper obsZero = true ∧
    obsZero.Size = 0 ∧ obsZero.Peer = [] ∧
    (Trace demoWhisper Globals.fresh (some obsZero)).2 = none ∧
    (Trace demoWhisper Globals.fresh (some obsZero)).1.envelopeCounter.value
      [lit "topicA", lit "unknown", lit "false", []] = 1 ∧
    (Trace demoWhisper Globals.fresh (some obsZero)).1.envelopeVolume.value
      [lit "topicA", lit "unknown", lit "false", []] = 0 := by
  obtain ⟨h, _⟩ := Trace_total demoWhisper Globals.fresh (by decide) obsZero
  obtain ⟨h0, h1⟩ := h (by decide)
  exact ⟨by decide, by decide, rfl, rfl, h0, (h1 rfl).2 (by decide), (h1 rfl).1⟩

/-- C6 as stated fails: `Trace` of a nil observation does not complete, it panics on the
first field read; and `Trace` of the non-nil observation whose peer is the byte `0xff` does
not complete either, it panics on the label value. -/
theorem Trace_nil_panics :
    Trace demoWhisper Globals.fresh none = (Globals.fresh, some .nilPointerDereference) ∧
    (Trace demoWhisper Globals.fresh none).2 ≠ none ∧
    Trace demoWhisper Globals.fresh (some obsBadPeer)
      = (Globals.fresh, some (.invalidLabelValue [0xff])) ∧
    (Trace demoWhisper Globals.fresh (some obsBadPeer)).2 ≠ none := by
  refine ⟨rfl, by decide, by decide, by decide⟩

/-- C6, amended: `Trace` of a nil observation panics with a nil dereference and `Trace` of
an observation with a label value that is not valid UTF-8 panics on that value, the state
being left as it was in both cases.  `Trace` of a non-nil observation whose four label
values are valid UTF-8 completes from every counter state with the declared descriptors and
`float64` cells, whichever of its fields are missing: it is counted under the label values
computed from the fields as they are, an empty `Peer` giving the empty-string peer label
and a zero `Size` a zero volume increment; the observation with every field missing is
counted under the renderings of the zero topic and zero source, "false" and the empty
string, with a zero volume increment. -/
theorem Trace_non_nil_completes {TopicType EnvelopeSource : Type}
    (w : Whisper TopicType EnvelopeSource) (g : Globals) (hg : g.WF)
    (e : EnvelopeMeta TopicType EnvelopeSource) :
    Trace w g none = (g, some .nilPointerDereference) ∧
    (validLabels w e = false →
      (Trace w g (some e)).1 = g ∧
      ∃ v, v ∈ labelKey w e ∧ ValidString v = false ∧
        (Trace w g (some e)).2 = some (.invalidLabelValue v)) ∧
    (validLabels w e = true →
      (Trace w g (some e)).2 = none ∧
      (Trace w g (some e)).1.envelopeCounter.present
        [w.TopicString e.Topic, w.SourceString e, FormatBool e.IsNew, e.Peer] = true ∧
      (Trace w g (some e)).1.envelopeVolume.present
        [w.TopicString e.Topic, w.SourceString e, FormatBool e.IsNew, e.Peer] = true ∧
      (e.Peer = [] →
        (Trace w g (some e)).1.envelopeCounter.present
            [w.TopicString e.Topic, w.SourceString e, FormatBool e.IsNew, []] = true ∧
        (Trace w g (some e)).1.envelopeVolume.present
            [w.TopicString e.Topic, w.SourceString e, FormatBool e.IsNew, []] = true) ∧
      (e.Size = 0 →
        (Trace w g (some e)).1.envelopeVolume.value (labelKey w e)
          = g.envelopeVolume.value (labelKey w e))) ∧
    (validLabels w (zeroEnvelope w) = true →
      (Trace w g (some (zeroEnvelope w))).2 = none ∧
      (Trace w g (some (zeroEnvelope w))).1.envelopeCounter.present
        [w.TopicString w.zeroTopic, w.SourceString (zeroEnvelope w), lit "false", []]
        = true ∧
      (Trace w g (some (zeroEnvelope w))).1.envelopeVolume.present
        [w.TopicString w.zeroTopic, w.SourceString (zeroEnvelope w), lit "false", []]
        = true ∧
      (Trace w g (some (zeroEnvelope w))).1.envelopeVolume.value
        [w.TopicString w.zeroTopic, w.SourceString (zeroEnvelope w), lit "false", []]
        = g.envelopeVolume.value
          [w.TopicString w.zeroTopic, w.SourceString (zeroEnvelope w), lit "false", []]) := by
  have hz : roundF64 0 = 0 := by decide
  have hpres : ∀ x : EnvelopeMeta TopicType EnvelopeSource,
      (traced w g x).envelopeCounter.present (labelKey w x) = true ∧
      (traced w g x).envelopeVolume.present (labelKey w x) = true := by
    intro x
    rw [CounterVec.present_iff, CounterVec.present_iff]
    simp [traced, MetricMap.mem_keys_bump]
  have hvol : ∀ x : EnvelopeMeta TopicType EnvelopeSource, x.Size = 0 →
      (traced w g x).envelopeVolume.value (labelKey w x)
        = g.envelopeVolume.value (labelKey w x) := by
    intro x h0
    simp only [traced, CounterVec.value_bump, if_true, h0, hz, Nat.add_zero]
    exact MetricMap.isFloat64_getD _ _ hg.2.2.2
  refine ⟨rfl, ?_, ?_, ?_⟩
  · intro hv
    obtain ⟨v, h1, h2, h3⟩ := Trace_invalid w g e hg hv
    rw [h3]
    exact ⟨rfl, v, h1, h2, rfl⟩
  · intro hv
    rw [Trace_valid w g e hg hv]
    refine ⟨rfl, (hpres e).1, (hpres e).2, ?_, hvol e⟩
    intro hp
    have hk : labelKey w e
        = [w.TopicString e.Topic, w.SourceString e, FormatBool e.IsNew, []] := by
      simp [labelKey, hp]
    rw [← hk]
    exact hpres e
  · intro hv
    rw [Trace_valid w g _ hg hv]
    exact ⟨rfl, (hpres (zeroEnvelope w)).1, (hpres (zeroEnvelope w)).2,
      hvol (zeroEnvelope w) rfl⟩

/-- C6, amended, at the fresh state: an observation of size zero with an empty peer, and the
observation with every field missing. -/
theorem Trace_non_nil_completes_witness :
    (Trace demoWhisper Globals.fresh (some obsZero)).2 = none ∧
    (Trace demoWhisper Globals.fresh (some obsZero)).1.envelopeCounter.present
      [lit "topicA", lit "unknown", lit "false", []] = true ∧
    (Trace demoWhisper Globals.fresh (some obsZero)).1.envelopeVolume.value
      [lit "topicA", lit "unknown", lit "false", []] = 0 ∧
    (Trace demoWhisper Globals.fresh (some (zeroEnvelope demoWhisper))).2 = none ∧
    (Trace demoWhisper Globals.fresh (some (zeroEnvelope demoWhisper))).1.envelopeCounter.present
      [[], [], lit "false", []] = true := by
  obtain ⟨_, _, h, hzero⟩ :=
    Trace_non_nil_completes demoWhisper Globals.fresh (by decide) obsZero
  obtain ⟨h0, _, _, h1, h2⟩ := h (by decide)
  obtain ⟨h3, h4, _, _⟩ := hzero (by decide)
  exact ⟨h0, (h1 rfl).1, h2 rfl, h3, h4⟩

/-- C7: the is_new label value `Trace` uses is "true" for `IsNew = true` and "false" for
`IsNew = false`, never "1" or "0": the child `Trace` increments carries that string in third
position (its count becomes the `float64` sum of its value and 1, that is, exactly one more
while that is at most `2^53`), and no child with "1" or "0" in third position is touched.
Two observations with different `IsNew` have distinct keys and, recorded from the fresh
state, are counted once under each of the two keys.  `Trace` completes when the label
values are valid UTF-8. -/
theorem Trace_is_new_label {TopicType EnvelopeSource : Type}
    (w : Whisper TopicType EnvelopeSource) (g : Globals) (hg : g.WF)
    (e : EnvelopeMeta TopicType EnvelopeSource) :
    FormatBool true = lit "true" ∧ FormatBool false = lit "false" ∧
    (∀ b, FormatBool b ≠ lit "1" ∧ FormatBool b ≠ lit "0") ∧
    (validLabels w e = true →
      (Trace w g (some e)).2 = none ∧
      (e.IsNew = true →
        (Trace w g (some e)).1.envelopeCounter.present
          [w.TopicString e.Topic, w.SourceString e, lit "true", e.Peer] = true ∧
        (Trace w g (some e)).1.envelopeCounter.value
            [w.TopicString e.Topic, w.SourceString e, lit "true", e.Peer]
          = roundF64 (g.envelopeCounter.value
              [w.TopicString e.Topic, w.SourceString e, lit "true", e.Peer] + 1) ∧
        (g.envelopeCounter.value
            [w.TopicString e.Topic, w.SourceString e, lit "true", e.Peer] + 1 ≤ 2 ^ 53 →
          (Trace w g (some e)).1.envelopeCounter.value
              [w.TopicString e.Topic, w.SourceString e, lit "true", e.Peer]
            = g.envelopeCounter.value
                [w.TopicString e.Topic, w.SourceString e, lit "true", e.Peer] + 1)) ∧
      (e.IsNew = false →
        (Trace w g (some e)).1.envelopeCounter.present
          [w.TopicString e.Topic, w.SourceString e, lit "false", e.Peer] = true ∧
        (Trace w g (some e)).1.envelopeCounter.value
            [w.TopicString e.Topic, w.SourceString e, lit "false", e.Peer]
          = roundF64 (g.envelopeCounter.value
              [w.TopicString e.Topic, w.SourceString e, lit "false", e.Peer] + 1) ∧
        (g.envelopeCounter.value
            [w.TopicString e.Topic, w.SourceString e, lit "false", e.Peer] + 1 ≤ 2 ^ 53 →
          (Trace w g (some e)).1.envelopeCounter.value
              [w.TopicString e.Topic, w.SourceString e, lit "false", e.Peer]
            = g.envelopeCounter.value
                [w.TopicString e.Topic, w.SourceString e, lit "false", e.Peer] + 1))) ∧
    (∀ t s p,
      (Trace w g (some e)).1.envelopeCounter.get? [t, s, lit "1", p]
        = g.envelopeCounter.get? [t, s, lit "1", p] ∧
      (Trace w g (some e)).1.envelopeCounter.get? [t, s, lit "0", p]
        = g.envelopeCounter.get? [t, s, lit "0", p] ∧
      (Trace w g (some e)).1.envelopeVolume.get? [t, s, lit "1", p]
        = g.envelopeVolume.get? [t, s, lit "1", p] ∧
      (Trace w g (some e)).1.envelopeVolume.get? [t, s, lit "0", p]
        = g.envelopeVolume.get? [t, s, lit "0", p]) ∧
    (∀ e2 : EnvelopeMeta TopicType EnvelopeSource, e2.IsNew ≠ e.IsNew →
      labelKey w e2 ≠ labelKey w e ∧
      (validLabels w e = true → validLabels w e2 = true →
        (TraceAll w Globals.fresh [e, e2]).2 = none ∧
        (TraceAll w Globals.fresh [e, e2]).1.envelopeCounter.get? (labelKey w e) = some 1 ∧
        (TraceAll w Globals.fresh [e, e2]).1.envelopeCounter.get? (labelKey w e2)
          = some 1)) := by
  have hfb : ∀ b, FormatBool b ≠ lit "1" ∧ FormatBool b ≠ lit "0" := by
    intro b; cases b <;> exact ⟨by decide, by decide⟩
  have hval : ∀ k, k = labelKey w e →
      (traced w g e).envelopeCounter.present k = true ∧
      (traced w g e).envelopeCounter.value k = roundF64 (g.envelopeCounter.value k + 1) ∧
      (g.envelopeCounter.value k + 1 ≤ 2 ^ 53 →
        (traced w g e).envelopeCounter.value k = g.envelopeCounter.value k + 1) := by
    intro k hk
    subst hk
    have hv : (traced w g e).envelopeCounter.value (labelKey w e)
        = roundF64 (g.envelopeCounter.value (labelKey w e) + 1) := by
      simp [traced, CounterVec.value_bump]
    refine ⟨?_, hv, fun hb => by rw [hv]; exact roundF64_of_le hb⟩
    rw [CounterVec.present_iff]
    simp [traced, MetricMap.mem_keys_bump]
  refine ⟨rfl, rfl, hfb, ?_, ?_, ?_⟩
  · intro hv
    rw [Trace_valid w g e hg hv]
    refine ⟨rfl, ?_, ?_⟩
    · intro h
      exact hval _ (by simp [labelKey, h, FormatBool])
    · intro h
      exact hval _ (by simp [labelKey, h, FormatBool])
  · intro t s p
    have h1 : [t, s, lit "1", p] ≠ labelKey w e := by
      intro h
      simp only [labelKey, List.cons.injEq] at h
      exact (hfb e.IsNew).1 h.2.2.1.symm
    have h0 : [t, s, lit "0", p] ≠ labelKey w e := by
      intro h
      simp only [labelKey, List.cons.injEq] at h
      exact (hfb e.IsNew).2 h.2.2.1.symm
    cases hv : validLabels w e with
    | true =>
      rw [Trace_valid w g e hg hv]
      simp [traced, CounterVec.get?, MetricMap.get?_bump, h1, h0]
    | false =>
      obtain ⟨v, _, _, h3⟩ := Trace_invalid w g e hg hv
      rw [h3]
      exact ⟨rfl, rfl, rfl, rfl⟩
  · intro e2 hne
    have hk : labelKey w e2 ≠ labelKey w e := by
      intro h
      simp only [labelKey, List.cons.injEq] at h
      exact hne (FormatBool_injective _ _ h.2.2.1)
    refine ⟨hk, ?_⟩
    intro hv hv2
    have hall : ∀ x ∈ [e, e2], validLabels w x = true := by
      intro x hx
      rcases List.mem_cons.1 hx with h | h
      · rw [h]; exact hv
      · rw [List.mem_singleton.1 h]; exact hv2
    rw [TraceAll_valid w _ _ fresh_WF hall]
    refine ⟨rfl, ?_, ?_⟩
    · have hp : (tracedAll w Globals.fresh [e, e2]).envelopeCounter.present (labelKey w e)
          = true := by
        rw [CounterVec.present_iff, tracedAll_counter_keys]; simp
      have hw : withKey w [e, e2] (labelKey w e) = [e] := by
        simp [withKey, List.filter_cons, hk]
      show (tracedAll w Globals.fresh [e, e2]).envelopeCounter.get? (labelKey w e) = some 1
      rw [CounterVec.get?_eq, hp, tracedAll_count w _ _ _ (by rw [hw, (value_fresh _).1]; norm_num), hw]
      rfl
    · have hp : (tracedAll w Globals.fresh [e, e2]).envelopeCounter.present (labelKey w e2)
          = true := by
        rw [CounterVec.present_iff, tracedAll_counter_keys]; simp
      have hw : withKey w [e, e2] (labelKey w e2) = [e2] := by
        simp [withKey, List.filter_cons, hk.symm]
      show (tracedAll w Globals.fresh [e, e2]).envelopeCounter.get? (labelKey w e2) = some 1
      rw [CounterVec.get?_eq, hp, tracedAll_count w _ _ _ (by rw [hw, (value_fresh _).1]; norm_num), hw]
      rfl

/-- C7 at the fresh state, for `obsA` (new) and the same observation with `IsNew = false`. -/
theorem Trace_is_new_label_witness :
    (TraceAll demoWhisper Globals.fresh [obsA, { obsA with IsNew := false }]).2 = none ∧
    (TraceAll demoWhisper Globals.fresh
      [obsA, { obsA with IsNew := false }]).1.envelopeCounter.get?
        [lit "topicA", lit "peer", lit "true", lit "peer1"] = some 1 ∧
    (TraceAll demoWhisper Globals.fresh
      [obsA, { obsA with IsNew := false }]).1.envelopeCounter.get?
        [lit "topicA", lit "peer", lit "false", lit "peer1"] = some 1 := by
  obtain ⟨_, _, _, _, _, h⟩ := Trace_is_new_label demoWhisper Globals.fresh (by decide) obsA
  obtain ⟨_, h2⟩ := h { obsA with IsNew := false } (by decide)
  exact h2 (by decide) (by decide)

/-- C9: on a registry holding neither `envelope_counter` nor `envelope_volume`, `init`
succeeds, the two names being distinct; `init` on the resulting registry fails with the
duplicate-registration panic for `envelope_counter`. -/
theorem init_once {r : Registry}
    (h1 : "envelope_counter" ∉ r.descs.map Desc.fqName)
    (h2 : "envelope_volume" ∉ r.descs.map Desc.fqName) :
    envelopeCounter.desc.fqName ≠ envelopeVolume.desc.fqName ∧
    ∃ r2, init r = .ok r2 ∧
      r2.descs = r.descs ++ [envelopeCounter.desc, envelopeVolume.desc] ∧
      init r2 = .error (.duplicateRegistration "envelope_counter") := by
  refine ⟨by decide, ⟨r.descs ++ [envelopeCounter.desc, envelopeVolume.desc]⟩, ?_, rfl, ?_⟩
  · have hne : ¬ ("envelope_volume" = "envelope_counter") := by decide
    simp [init, MustRegister, envelopeCounter, envelopeVolume, NewCounterVec, h1, h2, hne,
      bind, Except.bind]
  · simp [init, MustRegister, envelopeCounter, envelopeVolume, NewCounterVec, bind, Except.bind]

/-- C9 on the empty registry. -/
theorem init_once_witness :
    ∃ r2, init ⟨[]⟩ = .ok r2 ∧
      init r2 = .error (.duplicateRegistration "envelope_counter") := by
  obtain ⟨_, r2, h, _, h3⟩ :=
    init_once (show "envelope_counter" ∉ (Registry.mk []).descs.map Desc.fqName by decide)
      (by decide)
  exact ⟨r2, h, h3⟩

/-- C8: from the fresh state, after the observations of a finite list have been recorded
(all of them when their label values are valid UTF-8, otherwise those before the first
panic), with K the number of distinct label tuples among the recorded observations, a scrape
holds exactly K series named `envelope_counter` and exactly K named `envelope_volume`;
each vector holds K children with pairwise distinct label values; both hold exactly the
keys of the recorded observations; and every exposed series carries the declared label
names zipped with a recorded key and the in-memory value of that key, every recorded key
being exposed in both families. -/
theorem Gather_complete {TopicType EnvelopeSource : Type}
    (w : Whisper TopicType EnvelopeSource)
    (es : List (EnvelopeMeta TopicType EnvelopeSource)) :
    ((∀ e ∈ es, validLabels w e = true) →
      (TraceAll w Globals.fresh es).2 = none ∧ recorded w es = es) ∧
    ((Gather (TraceAll w Globals.fresh es).1).filter
        (fun s => s.name = "envelope_counter")).length
      = (((recorded w es).map (labelKey w)).dedup).length ∧
    ((Gather (TraceAll w Globals.fresh es).1).filter
        (fun s => s.name = "envelope_volume")).length
      = (((recorded w es).map (labelKey w)).dedup).length ∧
    (TraceAll w Globals.fresh es).1.envelopeCounter.metrics.length
      = (((recorded w es).map (labelKey w)).dedup).length ∧
    (TraceAll w Globals.fresh es).1.envelopeVolume.metrics.length
      = (((recorded w es).map (labelKey w)).dedup).length ∧
    (TraceAll w Globals.fresh es).1.envelopeCounter.metrics.keys.Nodup ∧
    (TraceAll w Globals.fresh es).1.envelopeVolume.metrics.keys.Nodup ∧
    (∀ k, (TraceAll w Globals.fresh es).1.envelopeCounter.present k = true
      ↔ k ∈ (recorded w es).map (labelKey w)) ∧
    (∀ k, (TraceAll w Globals.fresh es).1.envelopeVolume.present k = true
      ↔ k ∈ (recorded w es).map (labelKey w)) ∧
    (∀ s ∈ Gather (TraceAll w Globals.fresh es).1,
      (s.name = "envelope_counter" ∧ ∃ k ∈ (recorded w es).map (labelKey w),
        s.labels = ["topic", "source", "is_new", "peer"].zip k ∧
        (TraceAll w Globals.fresh es).1.envelopeCounter.get? k = some s.value) ∨
      (s.name = "envelope_volume" ∧ ∃ k ∈ (recorded w es).map (labelKey w),
        s.labels = ["topic", "source", "is_new", "peer"].zip k ∧
        (TraceAll w Globals.fresh es).1.envelopeVolume.get? k = some s.value)) ∧
    (∀ k ∈ (recorded w es).map (labelKey w),
      (⟨"envelope_counter", ["topic", "source", "is_new", "peer"].zip k,
          (TraceAll w Globals.fresh es).1.envelopeCounter.value k⟩ : Sample)
        ∈ Gather (TraceAll w Globals.fresh es).1 ∧
      (⟨"envelope_volume", ["topic", "source", "is_new", "peer"].zip k,
          (TraceAll w Globals.fresh es).1.envelopeVolume.value k⟩ : Sample)
        ∈ Gather (TraceAll w Globals.fresh es).1) := by
  have hf : Globals.fresh.WF := fresh_WF
  have hvalid : (∀ e ∈ es, validLabels w e = true) →
      (TraceAll w Globals.fresh es).2 = none ∧ recorded w es = es :=
    fun h => ⟨((TraceAll_outcome w es _ hf).1).2 h, recorded_eq_self w es h⟩
  rw [TraceAll_state w es _ hf]
  generalize recorded w es = rs at *
  have hwf := tracedAll_WF w rs Globals.fresh hf
  obtain ⟨hnc, hnv⟩ := tracedAll_nodup w rs Globals.fresh List.nodup_nil List.nodup_nil
  have hkc : ∀ k, k ∈ (tracedAll w Globals.fresh rs).envelopeCounter.metrics.keys
      ↔ k ∈ rs.map (labelKey w) := by
    intro k
    rw [tracedAll_counter_keys]
    constructor
    · rintro (h | h)
      · cases h
      · exact h
    · exact Or.inr
  have hkv : ∀ k, k ∈ (tracedAll w Globals.fresh rs).envelopeVolume.metrics.keys
      ↔ k ∈ rs.map (labelKey w) := by
    intro k
    rw [tracedAll_volume_keys]
    constructor
    · rintro (h | h)
      · cases h
      · exact h
    · exact Or.inr
  have hlc : (tracedAll w Globals.fresh rs).envelopeCounter.metrics.length
      = ((rs.map (labelKey w)).dedup).length := by
    rw [← length_eq_dedup_length _ _ hnc hkc, MetricMap.keys, List.length_map]
  have hlv : (tracedAll w Globals.fresh rs).envelopeVolume.metrics.length
      = ((rs.map (labelKey w)).dedup).length := by
    rw [← length_eq_dedup_length _ _ hnv hkv, MetricMap.keys, List.length_map]
  have hdc : (tracedAll w Globals.fresh rs).envelopeCounter.desc = envelopeCounter.desc :=
    hwf.1
  have hdv : (tracedAll w Globals.fresh rs).envelopeVolume.desc = envelopeVolume.desc :=
    hwf.2.1
  refine ⟨hvalid, ?_, ?_, hlc, hlv, hnc, hnv, ?_, ?_, ?_, ?_⟩
  · rw [Gather_filter_counter _ hwf, CounterVec.Collect, List.length_map, hlc]
  · rw [Gather_filter_volume _ hwf, CounterVec.Collect, List.length_map, hlv]
  · intro k; rw [CounterVec.present_iff, hkc]
  · intro k; rw [CounterVec.present_iff, hkv]
  · intro s hs
    rcases List.mem_append.1 hs with h | h
    · left
      obtain ⟨p, hp, rfl⟩ := List.mem_map.1 h
      refine ⟨by rw [hdc]; rfl, p.1, (hkc p.1).1 (List.mem_map.2 ⟨p, hp, rfl⟩), ?_, ?_⟩
      · simp only [hdc]; rfl
      · exact MetricMap.get?_of_mem _ hnc p.1 p.2 hp
    · right
      obtain ⟨p, hp, rfl⟩ := List.mem_map.1 h
      refine ⟨by rw [hdv]; rfl, p.1, (hkv p.1).1 (List.mem_map.2 ⟨p, hp, rfl⟩), ?_, ?_⟩
      · simp only [hdv]; rfl
      · exact MetricMap.get?_of_mem _ hnv p.1 p.2 hp
  · intro k hk
    constructor
    · apply List.mem_append_left
      have hpres : (tracedAll w Globals.fresh rs).envelopeCounter.present k = true := by
        rw [CounterVec.present_iff, hkc]; exact hk
      have hget := CounterVec.get?_eq (tracedAll w Globals.fresh rs).envelopeCounter k
      rw [hpres, if_pos rfl] at hget
      refine List.mem_map.2 ⟨(k, _), MetricMap.mem_of_get? _ _ _ hget, ?_⟩
      simp only [hdc]; rfl
    · apply List.mem_append_right
      have hpres : (tracedAll w Globals.fresh rs).envelopeVolume.present k = true := by
        rw [CounterVec.present_iff, hkv]; exact hk
      have hget := CounterVec.get?_eq (tracedAll w Globals.fresh rs).envelopeVolume k
      rw [hpres, if_pos rfl] at hget
      refine List.mem_map.2 ⟨(k, _), MetricMap.mem_of_get? _ _ _ hget, ?_⟩
      simp only [hdv]; rfl

/-- C8 for the list `obsA, obsB, obsA`, whose keys form two distinct label tuples. -/
theorem Gather_complete_witness :
    (TraceAll demoWhisper Globals.fresh [obsA, obsB, obsA]).2 = none ∧
    ((Gather (TraceAll demoWhisper Globals.fresh [obsA, obsB, obsA]).1).filter
      (fun s => s.name = "envelope_counter")).length = 2 ∧
    ((Gather (TraceAll demoWhisper Globals.fresh [obsA, obsB, obsA]).1).filter
      (fun s => s.name = "envelope_volume")).length = 2 ∧
    (⟨"envelope_volume",
        [("topic", lit "topicA"), ("source", lit "peer"), ("is_new", lit "true"),
          ("peer", lit "peer1")],
        (TraceAll demoWhisper Globals.fresh [obsA, obsB, obsA]).1.envelopeVolume.value
          [lit "topicA", lit "peer", lit "true", lit "peer1"]⟩ : Sample)
      ∈ Gather (TraceAll demoWhisper Globals.fresh [obsA, obsB, obsA]).1 := by
  obtain ⟨h0, h1, h2, _, _, _, _, _, _, _, h3⟩ :=
    Gather_complete demoWhisper [obsA, obsB, obsA]
  refine ⟨(h0 (by decide)).1, ?_, ?_, ?_⟩
  · rw [h1]; decide
  · rw [h2]; decide
  · exact (h3 [lit "topicA", lit "peer", lit "true", lit "peer1"] (by decide)).2

end Node
